import Mathlib

/-!
Verification of the natural-language specification of two emulation cores:

* `src/src/mame/drivers/mac128.cpp` — original-form-factor Macintosh logic
  board glue (memory overlay, interrupt fan-in, VIA bus sync, PWM floppy
  motor-speed decoding).
* the YMF278B (OPL4) FM + wavetable synthesizer device
  (`src/unnamed/part_000`).

Each C++ function relevant to the claims is shallowly embedded as an
executable Lean definition over explicit state records.  Machine integers
are modelled as `Nat`/`Int` with explicit `% 2^w` wherever C++ wraparound
can occur.  The two spots where the C++ code uses floating point — the
PWM rpm computation (only ever compared for exact equality of values
produced by the same formula) and the precomputed volume table (its
values are irrelevant to every claim) — are modelled by exact rationals
and by an abstract table parameter respectively.
-/

namespace Mac128

/-! ### Interrupt arbiter (`mac128_state::field_interrupts`) -/

/-- The slice of `mac128_state` involved in interrupt fan-in: the three
latched interrupt inputs, the `m_last_taken_interrupt` bookkeeping value,
and the CPU's interrupt input lines (`true` = asserted). -/
structure IrqState where
  scc_interrupt : Bool
  via_interrupt : Bool
  scsi_interrupt : Bool
  last_taken_interrupt : Int
  lines : Nat → Bool
deriving Inhabited

/-- `m_maincpu->set_input_line(l, b)`. -/
def setInputLine (lines : Nat → Bool) (l : Nat) (b : Bool) : Nat → Bool :=
  fun m => if m = l then b else lines m

/-- The priority computation at the top of `field_interrupts`:
`2` if SCC or SCSI, else `1` if VIA, else `-1`. -/
def takeInterrupt (s : IrqState) : Int :=
  if s.scc_interrupt || s.scsi_interrupt then 2
  else if s.via_interrupt then 1
  else -1

/-- `mac128_state::field_interrupts`: clear the previously asserted CPU
line (if any), then assert the newly selected one (if any). -/
def field_interrupts (s : IrqState) : IrqState :=
  let take := takeInterrupt s
  let s1 :=
    if s.last_taken_interrupt > -1 then
      { s with lines := setInputLine s.lines s.last_taken_interrupt.toNat false,
               last_taken_interrupt := -1 }
    else s
  if take > -1 then
    { s1 with lines := setInputLine s1.lines take.toNat true,
              last_taken_interrupt := take }
  else s1

/-- `mac128_state::set_scc_interrupt`. -/
def set_scc_interrupt (s : IrqState) (state : Bool) : IrqState :=
  field_interrupts { s with scc_interrupt := state }

/-- `mac128_state::set_via_interrupt`. -/
def set_via_interrupt (s : IrqState) (value : Bool) : IrqState :=
  field_interrupts { s with via_interrupt := value }

/-- Invariant: only the line recorded in `m_last_taken_interrupt` may be
asserted to the CPU. -/
def IrqInv (s : IrqState) : Prop :=
  ∀ l : Nat, s.lines l = true → s.last_taken_interrupt = (l : Int)

/-! ### Overlay RAM window (`ram_r` / `ram_w` / `ram_w_se`) -/

/-- The slice of `mac128_state` involved in the low RAM window: the
overlay flag, RAM contents (16-bit words), the ROM, and the size masks. -/
structure RamState where
  overlay : Bool
  ram : Nat → Nat
  rom : Nat → Nat
  ram_mask : Nat
deriving Inhabited

/-- `COMBINE_DATA` on a 16-bit word:
`*ptr = (*ptr & ~mem_mask) | (data & mem_mask)`. -/
def combineData (old data mem_mask : Nat) : Nat :=
  (old % 2 ^ 16 &&& (65535 ^^^ mem_mask % 2 ^ 16)) ||| (data &&& mem_mask % 2 ^ 16)

/-- `mac128_state::ram_r`. -/
def ram_r (s : RamState) (offset : Nat) : Nat :=
  if s.overlay then s.rom (offset &&& 0x7ffff) else s.ram (offset &&& s.ram_mask)

/-- `mac128_state::ram_w` (base variants): no-op while overlay is active. -/
def ram_w (s : RamState) (offset data mem_mask : Nat) : RamState :=
  if s.overlay then s
  else
    { s with ram := fun a =>
        if a = (offset &&& s.ram_mask) then
          combineData (s.ram (offset &&& s.ram_mask)) data mem_mask
        else s.ram a }

/-- `mac128_state::ram_w_se` (SE family): clears the overlay and writes
unconditionally. -/
def ram_w_se (s : RamState) (offset data mem_mask : Nat) : RamState :=
  { s with overlay := false,
           ram := fun a =>
             if a = (offset &&& s.ram_mask) then
               combineData (s.ram (offset &&& s.ram_mask)) data mem_mask
             else s.ram a }

/-- Machine variants as distinguished by the address maps. -/
inductive Variant where
  | mac512ke | macplus | macse
deriving DecidableEq

/-- Which handler each variant's address map wires to the `0x000000`–
`0x3fffff` write window (`mac512ke_map` / `macplus_map` use `ram_w`,
`macse_map` uses `ram_w_se`). -/
def low_ram_write : Variant → RamState → Nat → Nat → Nat → RamState
  | .mac512ke => ram_w
  | .macplus => ram_w
  | .macse => ram_w_se

/-! ### VIA bus synchronisation (`via_sync` / `via_sync_end`) -/

/-- The E-clock boundary computed by `mac128_state::via_sync`:
`vpa_cycle = cur + 2`, `via_start_cycle = (vpa_cycle + 9) / 10`,
`m68k_start_cycle = via_start_cycle * 10`.  The CPU's remaining-cycle
budget is then adjusted by `cur - m68k_start_cycle`, i.e. rolled forward
so that the access starts exactly at this cycle count. -/
def via_sync_start_cycle (cur_cycle : Nat) : Nat :=
  let vpa_cycle := cur_cycle + 2
  let via_start_cycle := (vpa_cycle + 9) / 10
  via_start_cycle * 10

/-- The `adjust_icount` argument passed by `via_sync` (non-positive:
cycles are consumed). -/
def via_sync_icount_adjust (cur_cycle : Nat) : Int :=
  (cur_cycle : Int) - (via_sync_start_cycle cur_cycle : Int)

/-- The `adjust_icount` argument passed by `via_sync_end`. -/
def via_sync_end_icount_adjust : Int := -4

/-- Cycle-count effect of `mac128_state::mac_via_r`: `via_sync()` rolls
the counter to the boundary, the access happens, `via_sync_end()`
consumes 4 more cycles.  Returns the absolute cycle count after the
access completes. -/
def mac_via_r_end_cycle (cur_cycle : Nat) : Nat :=
  via_sync_start_cycle cur_cycle + 4

/-- Cycle-count effect of `mac128_state::mac_via_w`, built from the same
`via_sync` / `via_sync_end` pair. -/
def mac_via_w_end_cycle (cur_cycle : Nat) : Nat :=
  via_sync_start_cycle cur_cycle + 4

/-! ### PWM floppy motor-speed decoder (`pwm_push`) -/

/-- The 64-entry LFSR de-scrambling table `value_to_length`. -/
def value_to_length : List Nat :=
  [ 0,  1, 59,  2, 60, 40, 54,  3,
   61, 32, 49, 41, 55, 19, 35,  4,
   62, 52, 30, 33, 50, 12, 14, 42,
   56, 16, 27, 20, 36, 23, 44,  5,
   63, 58, 39, 53, 31, 48, 18, 34,
   51, 29, 11, 13, 15, 26, 22, 43,
   57, 38, 47, 17, 28, 10, 25, 21,
   37, 46,  9, 24, 45,  8,  7,  6]

/-- The slice of `mac128_state` driving the floppy motor speed:
the two window counters, the last two computed rpm values
(`m_pwm_current_rpm[0]`, `m_pwm_current_rpm[1]`), and a log of the rpm
values actually committed to the drive motor (`set_rpm` calls). -/
structure PwmState where
  pwm_count_total : Nat
  pwm_count_1 : Nat
  pwm_current_rpm : ℚ × ℚ
  commits : List ℚ
deriving Inhabited

/-- The clamped internal index computed inside `pwm_push` at a window
boundary: `sum / (total/10) - 11` clamped to `[0, 399]` (C++ `int`
arithmetic; both operands of the division are non-negative). -/
def pwm_internal_index (count_1 count_total : Nat) : Int :=
  let i : Int := (count_1 / (count_total / 10) : Nat) - 11
  if i < 0 then 0 else if i > 399 then 399 else i

/-- The duty cycle → rpm formula of `pwm_push`, over exact rationals.
`duty = index / 419`, `rpm = (duty - 0.094) * (702.5 - 342.5) /
(0.91 - 0.094) + 342.5`.  The C++ code computes this in `float`; since
the formula is strictly monotone in the index with a spacing of about
1.05 rpm between adjacent indices (far above `float` granularity) and
rpm values are only ever compared for equality against values produced
by the same formula (or against the reset constant 302.5), equality of
the rational values coincides with equality of the floats. -/
def pwm_rpm (internal_index : Int) : ℚ :=
  let duty_cycle : ℚ := (internal_index : ℚ) / 419
  (duty_cycle - 94 / 1000) * (1405 / 2 - 685 / 2) / (91 / 100 - 47 / 500) + 685 / 2

/-- The rpm computed by a full 100-pulse window whose pulse lengths sum
to `sum`. -/
def pwm_window_rpm (sum : Nat) : ℚ :=
  pwm_rpm (pwm_internal_index sum 100)

/-- `mac128_state::pwm_push`: accumulate one pulse; at the 100th pulse
compute the rpm, commit it iff it equals the previous reading and that
previous reading differs from the one before it, then shift the reading
history and reset both counters. -/
def pwm_push (s : PwmState) (data : Nat) : PwmState :=
  let c1 := s.pwm_count_1 + value_to_length.getD (data % 64) 0
  let total := s.pwm_count_total + 1
  if total = 100 then
    let rpm := pwm_rpm (pwm_internal_index c1 total)
    let commits :=
      if rpm = s.pwm_current_rpm.2 ∧ s.pwm_current_rpm.2 ≠ s.pwm_current_rpm.1 then
        s.commits ++ [rpm]
      else s.commits
    { pwm_count_total := 0, pwm_count_1 := 0,
      pwm_current_rpm := (s.pwm_current_rpm.2, rpm), commits := commits }
  else
    { s with pwm_count_1 := c1, pwm_count_total := total }

/-- Feeding a stream of PWM bytes (the low bytes of successive sound
buffer words, as pushed by `mac_scanline`). -/
def pwm_pushList (s : PwmState) (bs : List Nat) : PwmState :=
  bs.foldl pwm_push s

/-- The sum of decoded pulse lengths of a byte stream. -/
def pwm_sum (bs : List Nat) : Nat :=
  (bs.map (fun d => value_to_length.getD (d % 64) 0)).sum

/-- `machine_reset` initialises both rpm history entries to 302.5. -/
def pwm_reset : PwmState :=
  { pwm_count_total := 0, pwm_count_1 := 0,
    pwm_current_rpm := (605 / 2, 605 / 2), commits := [] }

end Mac128

namespace YMF278B

/-! ### Rate tables (`ymf278b_device::precompute_rate_tables`)

Built with pure integer arithmetic in the C++ code. -/

/-- `m_lut_dr` (decay time table). -/
def lut_dr (i : Nat) : Nat :=
  if i ≤ 3 then 0
  else if i ≥ 60 then 15 <<< 4
  else (15 <<< (21 - i / 4)) / (4 + i % 4)

/-- `m_lut_ar` (attack time table). -/
def lut_ar (i : Nat) : Nat :=
  if i ≤ 3 ∨ i = 63 then 0
  else if i ≥ 60 then 17
  else (67 <<< (15 - i / 4)) / (4 + i % 4)

/-! ### Per-voice slot state (`YMF278BSlot`) -/

/-- One of the 24 wavetable voice slots.  32-bit unsigned fields
(`step`, `stepptr`, `env_vol`, `env_vol_step`, `env_vol_lim`,
`startaddr`, `loopaddr`, `endaddr`) are `Nat`s kept below `2^32` by
explicit `% 2^32` at every operation that could wrap. -/
structure Slot where
  wave : Nat
  F_NUMBER : Nat
  octave : Nat
  preverb : Bool
  DAMP : Bool
  CH : Bool
  LD : Nat
  TL : Nat
  pan : Nat
  LFO : Nat
  VIB : Nat
  AM : Nat
  AR : Nat
  D1R : Nat
  DL : Nat
  D2R : Nat
  RC : Nat
  RR : Nat
  step : Nat
  stepptr : Nat
  active : Bool
  KEY_ON : Bool
  bits : Nat
  startaddr : Nat
  loopaddr : Nat
  endaddr : Nat
  env_step : Nat
  env_vol : Nat
  env_vol_step : Nat
  env_vol_lim : Nat
  env_preverb : Bool
deriving Inhabited, DecidableEq

/-- An all-zero slot, used as a base point for concrete instances. -/
def slot0 : Slot :=
  { wave := 0, F_NUMBER := 0, octave := 0, preverb := false, DAMP := false,
    CH := false, LD := 0, TL := 0, pan := 0, LFO := 0, VIB := 0, AM := 0,
    AR := 0, D1R := 0, DL := 0, D2R := 0, RC := 0, RR := 0, step := 0,
    stepptr := 0, active := false, KEY_ON := false, bits := 0,
    startaddr := 0, loopaddr := 0, endaddr := 0, env_step := 0,
    env_vol := 0, env_vol_step := 0, env_vol_lim := 0, env_preverb := false }

/-- The signed reading of the 4-bit octave field (`oct |= -8` when bit 3
is set). -/
def octSigned (octave : Nat) : Int :=
  if octave &&& 8 ≠ 0 then (octave : Int) - 16 else (octave : Int)

/-- `ymf278b_device::compute_rate`. -/
def compute_rate (slot : Slot) (val : Nat) : Nat :=
  if val = 0 then 0
  else if val = 15 then 63
  else
    let res : Int :=
      if slot.RC ≠ 15 then
        (octSigned slot.octave + slot.RC) * 2 +
          (if slot.F_NUMBER &&& 0x200 ≠ 0 then 1 else 0) + val * 4
      else (val : Int) * 4
    if res < 0 then 0 else if res > 63 then 63 else res.toNat

/-- `ymf278b_device::compute_decay_env_vol_step`.  Returns the updated
slot (the pseudo-reverb branch latches `env_preverb`) together with the
computed step. -/
def compute_decay_env_vol_step (slot : Slot) (val : Nat) : Slot × Nat :=
  let sr : Slot × Nat :=
    if slot.DAMP then (slot, 56)
    else if slot.preverb ∧ slot.env_vol > ((6 * 8) <<< 23) then
      ({ slot with env_preverb := true }, 5)
    else (slot, compute_rate slot val)
  (sr.1, if sr.2 < 4 then 0 else (256 <<< 23) / lut_dr sr.2)

/-- `ymf278b_device::compute_freq_step`:
`step = ((F_NUMBER | 1024) << (oct + 8)) >> 3` (32-bit). -/
def compute_freq_step (slot : Slot) : Slot :=
  let oct := octSigned slot.octave
  let step := ((slot.F_NUMBER ||| 1024) <<< (oct + 8).toNat) % 2 ^ 32
  { slot with step := step >>> 3 }

/-- `ymf278b_device::compute_envelope`, with explicit recursion fuel.
The C++ function recurses at most twice (Attack with maximum rate chains
into Decay1, which chains into Decay2 when `DL = 0`; `env_step` strictly
increases at each recursive call), so any fuel `≥ 3` yields the exact
behaviour. -/
def compute_envelope_fuel : Nat → Slot → Slot
  | 0, slot => slot
  | fuel + 1, slot =>
    match slot.env_step with
    | 0 =>
      -- Attack
      let rate := compute_rate slot slot.AR
      let slot := { slot with env_vol := 256 <<< 23, env_vol_lim := (256 <<< 23) - 1 }
      if rate = 63 then
        compute_envelope_fuel fuel { slot with env_vol := 0, env_step := slot.env_step + 1 }
      else if rate < 4 then
        { slot with env_vol_step := 0 }
      else
        { slot with env_vol_step := (2 ^ 32 - 1) - (256 <<< 23) / lut_ar rate }
    | 1 =>
      -- Decay 1
      if slot.DL ≠ 0 then
        let sr := compute_decay_env_vol_step slot slot.D1R
        { sr.1 with env_vol_step := sr.2, env_vol_lim := (slot.DL * 8) <<< 23 }
      else
        compute_envelope_fuel fuel { slot with env_step := slot.env_step + 1 }
    | 2 =>
      -- Decay 2
      let sr := compute_decay_env_vol_step slot slot.D2R
      { sr.1 with env_vol_step := sr.2, env_vol_lim := 256 <<< 23 }
    | 3 =>
      -- Decay 2 reached -96dB
      { slot with env_vol := 256 <<< 23, env_vol_step := 0, env_vol_lim := 0,
                  active := false }
    | 4 =>
      -- Release
      let sr := compute_decay_env_vol_step slot slot.RR
      { sr.1 with env_vol_step := sr.2, env_vol_lim := 256 <<< 23 }
    | 5 =>
      -- Release reached -96dB
      { slot with env_vol := 256 <<< 23, env_vol_step := 0, env_vol_lim := 0,
                  active := false }
    | _ => slot

/-- `ymf278b_device::compute_envelope`. -/
def compute_envelope (slot : Slot) : Slot :=
  compute_envelope_fuel 3 slot

/-- `ymf278b_device::retrigger_sample`. -/
def retrigger_sample (slot : Slot) : Slot :=
  let slot := if slot.octave ≠ 8 then { slot with active := true } else slot
  let slot := { slot with stepptr := 0, env_step := 0, env_preverb := false }
  compute_envelope (compute_freq_step slot)

/-! ### Chip state and the PCM command decoder (`C_w`) -/

/-- Abstract state of the embedded YMF262-compatible FM engine (`m_fm`,
implemented outside this repository).  Only the pieces the PCM interface
observes are modelled: the NEW/NEW2 flags, the engine status byte, and
the BUSY/LD status bits that `set_reset_status` drives. -/
structure FMState where
  new2 : Bool
  newflag : Bool
  status : Nat
  busy : Bool
  ld : Bool
deriving Inhabited, DecidableEq

/-- The device state of `ymf278b_device` relevant to the PCM side:
24 voice slots (indices 0–23), the 256-entry PCM register file, global
controls, the two-port write latches, the abstract FM engine state, the
byte-addressable external wave memory, and the FM resampler phase. -/
structure Chip where
  slots : Nat → Slot
  pcmregs : Nat → Nat
  wavetblhdr : Nat
  memmode : Nat
  memadr : Nat
  fm_l : Nat
  fm_r : Nat
  pcm_l : Nat
  pcm_r : Nat
  port_AB : Nat
  port_C : Nat
  lastport : Nat
  next_status_id : Bool
  fm : FMState
  mem : Nat → Nat
  fm_pos : Nat

/-- Point update of a `Nat`-indexed function. -/
def updFun (f : Nat → Nat) (i v : Nat) : Nat → Nat :=
  fun j => if j = i then v else f j

/-- Replace slot `n`. -/
def setSlot (c : Chip) (n : Nat) (s : Slot) : Chip :=
  { c with slots := fun m => if m = n then s else c.slots m }

/-- `read_byte` (via `device_rom_interface`): external wave memory is
byte-wide. -/
def read_byte (c : Chip) (a : Nat) : Nat :=
  c.mem a % 256

/-- The register index of voice parameter group `group` of slot `snum`
(slot registers are `0x08 + snum + group * 24`). -/
def slotreg (snum group : Nat) : Nat :=
  8 + snum + group * 24

/-- Group 1 of the slot cases of `C_w`: wave high bit and F_NUMBER low
bits; an active voice whose fields changed recomputes frequency step and
envelope.  `pcmold` is `m_pcmregs[reg]` before the write. -/
def slot_w1 (pcmold data : Nat) (s : Slot) : Slot :=
  let s := { s with wave := (s.wave &&& 0xff) ||| ((data &&& 1) <<< 8),
                    F_NUMBER := (s.F_NUMBER &&& 0x380) ||| (data >>> 1) }
  if s.active = true ∧ ((data ^^^ pcmold) &&& 0xfe) ≠ 0 then
    compute_envelope (compute_freq_step s)
  else s

/-- Group 2: F_NUMBER high bits, pseudo-reverb flag, octave.  On an
actual change the channel goes off iff octave is the prohibited value 8;
a (re)activated channel recomputes frequency step and envelope (which
deactivates it again when the envelope is terminal). -/
def slot_w2 (pcmold data : Nat) (s : Slot) : Slot :=
  let s := { s with F_NUMBER := (s.F_NUMBER &&& 0x07f) ||| ((data &&& 0x07) <<< 7),
                    preverb := (data &&& 0x8) ≠ 0,
                    octave := (data &&& 0xf0) >>> 4 }
  if data ≠ pcmold then
    let s := { s with active := s.octave ≠ 8 }
    if s.active = true then
      compute_envelope (compute_freq_step { s with env_preverb := false })
    else s
  else s

/-- Group 3: total level and level-direct bit. -/
def slot_w3 (data : Nat) (s : Slot) : Slot :=
  { s with TL := data >>> 1, LD := data &&& 0x1 }

/-- Group 4: output select, pan, damp, and key on/off.  A fresh key-on
retriggers; key-on while already keyed only re-evaluates the envelope
when DAMP changed (the C++ `break` in that branch also skips the final
KEY_ON store, a no-op since KEY_ON is already 1); key-off on an active
voice jumps to the Release phase. -/
def slot_w4 (pcmold data : Nat) (s : Slot) : Slot :=
  let s := { s with CH := (data &&& 0x10) ≠ 0, pan := data &&& 0xf,
                    DAMP := (data &&& 0x40) ≠ 0 }
  if data &&& 0x80 ≠ 0 then
    if s.KEY_ON = true then
      if ((data ^^^ pcmold) &&& 0x40) ≠ 0 then compute_envelope s else s
    else
      { (retrigger_sample s) with KEY_ON := true }
  else
    let s := if s.active = true then compute_envelope { s with env_step := 4 } else s
    { s with KEY_ON := false }

/-- Group 5: LFO and vibrato level (stored only). -/
def slot_w5 (data : Nat) (s : Slot) : Slot :=
  { s with LFO := (data >>> 3) &&& 0x7, VIB := data &&& 0x7 }

/-- Group 6: attack rate and decay-1 rate. -/
def slot_w6 (pcmold data : Nat) (s : Slot) : Slot :=
  let s := { s with AR := data >>> 4, D1R := data &&& 0xf }
  if s.active = true ∧ data ≠ pcmold then compute_envelope s else s

/-- Group 7: decay level and decay-2 rate. -/
def slot_w7 (pcmold data : Nat) (s : Slot) : Slot :=
  let s := { s with DL := data >>> 4, D2R := data &&& 0xf }
  if s.active = true ∧ data ≠ pcmold then compute_envelope s else s

/-- Group 8: rate correction and release rate. -/
def slot_w8 (pcmold data : Nat) (s : Slot) : Slot :=
  let s := { s with RC := data >>> 4, RR := data &&& 0xf }
  if s.active = true ∧ data ≠ pcmold then compute_envelope s else s

/-- Group 9: tremolo level (stored only). -/
def slot_w9 (data : Nat) (s : Slot) : Slot :=
  { s with AM := data &&& 0x7 }

/-- The C++ `switch((reg-8)/24)` over the slot parameter groups 1–9
(group 0 is handled by `C_w` itself). -/
def slot_dispatch (grp pcmold data : Nat) (s : Slot) : Slot :=
  if grp = 1 then slot_w1 pcmold data s
  else if grp = 2 then slot_w2 pcmold data s
  else if grp = 3 then slot_w3 data s
  else if grp = 4 then slot_w4 pcmold data s
  else if grp = 5 then slot_w5 data s
  else if grp = 6 then slot_w6 pcmold data s
  else if grp = 7 then slot_w7 pcmold data s
  else if grp = 8 then slot_w8 pcmold data s
  else if grp = 9 then slot_w9 data s
  else s

/-- The slot-parameter cases of `ymf278b_device::C_w` for groups 1–9,
and all non-slot (global) registers.  Group 0 (the wave-table-index
write) is handled by `C_w` itself; its five recursive register writes
only ever target groups 5–9 of the same slot and are expressed through
this function.  Every path ends with `m_pcmregs[reg] = data` (register
3 stores its value masked to 6 bits, because the C++ `case 0x03` masks
`data` before falling through to the final store). -/
def C_w_base (c : Chip) (reg data : Nat) : Chip :=
  if 8 ≤ reg ∧ reg ≤ 0xf7 then
    let snum := (reg - 8) % 24
    let s' := slot_dispatch ((reg - 8) / 24) (c.pcmregs reg) data (c.slots snum)
    { (setSlot c snum s') with pcmregs := updFun c.pcmregs reg data }
  else
    let c' :=
      if reg = 2 then { c with wavetblhdr := (data >>> 2) &&& 0x7, memmode := data &&& 3 }
      else if reg = 5 then
        { c with memadr := ((c.pcmregs 3) <<< 16) ||| ((c.pcmregs 4) <<< 8) ||| data }
      else if reg = 6 then
        { c with mem := updFun c.mem c.memadr data,
                 memadr := (c.memadr + 1) &&& 0x3fffff }
      else if reg = 0xf8 then { c with fm_l := data &&& 0x7, fm_r := (data >>> 3) &&& 0x7 }
      else if reg = 0xf9 then { c with pcm_l := data &&& 0x7, pcm_r := (data >>> 3) &&& 0x7 }
      else c
    { c' with pcmregs := updFun c'.pcmregs reg (if reg = 3 then data &&& 0x3f else data) }

/-- The wavetable header address computed by the group-0 case of `C_w`:
`wave * 12`, or `wavetblhdr * 0x80000 + (wave - 384) * 12` when
`wave ≥ 384` and the bank flag is nonzero. -/
def wave_header_offset (wave wavetblhdr : Nat) : Nat :=
  if wave < 384 ∨ wavetblhdr = 0 then wave * 12
  else wavetblhdr * 0x80000 + (wave - 384) * 12

/-- The group-0 (wave-table-index) case of `ymf278b_device::C_w` for
slot `snum` (register `8 + snum`): fetch the 12-byte header `p[0..11]`,
populate bit-depth and start/loop/end addresses, re-write the group 5–9
registers of the slot from `p[7..11]`, raise the LD status bit, then
retrigger (key on) or deactivate (key off while active) the voice. -/
def C_w_wave (c : Chip) (snum data : Nat) : Chip :=
  let s0 := c.slots snum
  let wave := (s0.wave &&& 0x100) ||| data
  let offset := wave_header_offset wave c.wavetblhdr
  let p := fun i => read_byte c (offset + i)
  let s1 := { s0 with
    wave := wave,
    bits := (p 0 &&& 0xc0) >>> 6,
    startaddr := (p 2) ||| ((p 1) <<< 8) ||| ((p 0 &&& 0x3f) <<< 16),
    loopaddr := ((p 4) <<< 16) ||| ((p 3) <<< 24),
    endaddr := (((((p 6) <<< 16) ||| ((p 5) <<< 24)) + (2 ^ 32 - 0x10000)) % 2 ^ 32)
                 ^^^ 0xffff0000 }
  let c1 := setSlot c snum s1
  let c2 := C_w_base c1 (slotreg snum 5) (p 7)
  let c3 := C_w_base c2 (slotreg snum 6) (p 8)
  let c4 := C_w_base c3 (slotreg snum 7) (p 9)
  let c5 := C_w_base c4 (slotreg snum 8) (p 10)
  let c6 := C_w_base c5 (slotreg snum 9) (p 11)
  -- status register LD bit is on (cleared ~300us later by a timer)
  let c7 := { c6 with fm := { c6.fm with ld := true } }
  let s2 := c7.slots snum
  let c8 :=
    if s2.KEY_ON = true then setSlot c7 snum (retrigger_sample s2)
    else if s2.active = true then
      setSlot c7 snum (compute_envelope { s2 with env_step := 5 })
    else c7
  { c8 with pcmregs := updFun c8.pcmregs (8 + snum) data }

/-- `ymf278b_device::C_w`. -/
def C_w (c : Chip) (reg data : Nat) : Chip :=
  if 8 ≤ reg ∧ reg ≤ 0xf7 then
    if (reg - 8) / 24 = 0 then C_w_wave c ((reg - 8) % 24) data
    else C_w_base c reg data
  else C_w_base c reg data

/-- The slot fields that neither `compute_envelope` nor
`compute_freq_step` nor the group 5–9 register writes touch; used to
carry facts through the header-load chain. -/
def slotCore (s : Slot) : Nat × Nat × Nat × Nat × Nat × Bool × Nat :=
  (s.wave, s.bits, s.startaddr, s.loopaddr, s.endaddr, s.KEY_ON, s.octave)

/-! ### Two-port write protocol and status/read port
(`ymf278b_device::write` / `ymf278b_device::read`) -/

/-- `timer_busy_start`: sets the BUSY status bit (the timed clear is a
real-time effect outside the state model; the `is_pcm` flag only selects
the timer length). -/
def timer_busy_start (c : Chip) (_is_pcm : Bool) : Chip :=
  { c with fm := { c.fm with busy := true } }

/-- `ymf278b_device::write`.  `fm_write` abstracts `m_fm.write` (the
YMF262 engine, implemented outside this repository); it receives the
combined register address and the data byte. -/
def ymf_write (fm_write : FMState → Nat → Nat → FMState)
    (c : Chip) (offset data : Nat) : Chip :=
  match offset % 8 with
  | 0 | 2 =>
    { (timer_busy_start c false) with port_AB := data,
                                      lastport := (offset >>> 1) &&& 1 }
  | 1 | 3 =>
    let c := timer_busy_start c false
    let old := c.fm.new2
    let fm' := fm_write c.fm (c.port_AB ||| (c.lastport <<< 8)) data
    { c with fm := fm',
             next_status_id :=
               if old = false ∧ fm'.new2 = true then true else c.next_status_id }
  | 4 => { (timer_busy_start c true) with port_C := data }
  | 5 =>
    -- PCM regs are only accessible if NEW2 is set
    if c.fm.new2 = false then c
    else C_w (timer_busy_start c true) c.port_C data
  | _ => c

/-- `ymf278b_device::read`.  `busy_bit`/`ld_bit` are the numeric masks
of the externally defined `STATUS_BUSY`/`STATUS_LD` status bits, and
`fm_regs_read` abstracts `m_fm.regs().read` (both live in the FM engine
outside this repository).  Returns the byte read and the successor
state. -/
def ymf_read (busy_bit ld_bit : Nat) (fm_regs_read : FMState → Nat → Nat)
    (c : Chip) (offset : Nat) : Nat × Chip :=
  match offset % 8 with
  | 0 =>
    let ret := c.fm.status ||| (if c.fm.busy then busy_bit else 0)
                           ||| (if c.fm.ld then ld_bit else 0)
    if c.fm.new2 = false then
      let ret := ret &&& (255 ^^^ (busy_bit ||| ld_bit))
      (if c.fm.newflag = false then ret ||| 0x06 else ret, c)
    else if c.next_status_id then
      (ret ||| 0x02, { c with next_status_id := false })
    else (ret, c)
  | 1 | 3 => (fm_regs_read c.fm (c.port_AB ||| (c.lastport <<< 8)), c)
  | 5 =>
    if c.fm.new2 = false then (0, c)
    else
      match c.port_C with
      | 2 => ((c.pcmregs 2 &&& 0x1f) ||| 0x20, c)
      | 6 => (read_byte c c.memadr, { c with memadr := (c.memadr + 1) &&& 0x3fffff })
      | _ => (c.pcmregs c.port_C, c)
  | _ => (0, c)

/-! ### Per-sample wavetable playback (`sound_stream_update`, PCM half) -/

/-- The pan attenuation tables (`m_pan_left` / `m_pan_right`), built
with integer arithmetic at `device_start`. -/
def pan_left (i : Nat) : Nat :=
  if i < 7 then i * 8 else if i < 9 then 256 else 0

/-- See `pan_left`. -/
def pan_right (i : Nat) : Nat :=
  if i < 8 then 0 else if i < 10 then 256 else (16 - i) * 8

/-- Reading of a `Nat` as a C++ `int16_t` (the `sample` variable). -/
def toInt16 (n : Nat) : Int :=
  let m := n % 65536
  if m < 32768 then (m : Int) else (m : Int) - 65536

/-- The loop-wrap step at the top of the per-sample loop:
`if (stepptr >= endaddr) stepptr = stepptr - endaddr + loopaddr`
in 32-bit wraparound arithmetic. -/
def loop_wrap (s : Slot) : Slot :=
  if s.stepptr ≥ s.endaddr then
    { s with stepptr :=
        (s.stepptr + (2 ^ 32 - s.endaddr % 2 ^ 32) + s.loopaddr) % 2 ^ 32 }
  else s

/-- The bit-depth-dependent sample fetch of the per-sample loop. -/
def fetch_sample (mem : Nat → Nat) (s : Slot) : Int :=
  let rb := fun a => mem a % 256
  match s.bits with
  | 0 => toInt16 ((rb (s.startaddr + (s.stepptr >>> 16))) <<< 8)
  | 1 =>
    if s.stepptr &&& 0x10000 ≠ 0 then
      toInt16 (((rb (s.startaddr + (s.stepptr >>> 17) * 3 + 2)) <<< 8) |||
               ((rb (s.startaddr + (s.stepptr >>> 17) * 3 + 1)) &&& 0xf0))
    else
      toInt16 (((rb (s.startaddr + (s.stepptr >>> 17) * 3)) <<< 8) |||
               (((rb (s.startaddr + (s.stepptr >>> 17) * 3 + 1)) <<< 4) &&& 0xf0))
  | 2 =>
    toInt16 (((rb (s.startaddr + (s.stepptr >>> 16) * 2)) <<< 8) |||
             (rb (s.startaddr + (s.stepptr >>> 16) * 2 + 1)))
  | _ => 0

/-- The per-sample envelope advance at the bottom of the loop:
`env_vol += env_vol_step` (32-bit wrap); if the signed 32-bit reading of
`env_vol - env_vol_lim` is `≥ 0`, advance `env_step` and recompute;
otherwise the pseudo-reverb re-evaluation may fire. -/
def env_advance (s : Slot) : Slot :=
  let s := { s with env_vol := (s.env_vol + s.env_vol_step) % 2 ^ 32 }
  if (s.env_vol + (2 ^ 32 - s.env_vol_lim % 2 ^ 32)) % 2 ^ 32 < 2 ^ 31 then
    compute_envelope { s with env_step := s.env_step + 1 }
  else if s.preverb ∧ ¬s.env_preverb ∧ s.env_step ≠ 0 ∧ s.env_vol > ((6 * 8) <<< 23) then
    compute_envelope s
  else s

/-- One iteration of the per-sample loop for one slot: loop wrap, sample
fetch, scaling through the volume table (`vol`, the `m_volume` table
built from floating-point formulas at `device_start`, abstracted as a
parameter since no claim depends on its values), accumulation into the
mix buffer (channels 0/1 = DO2 wavetable bus, channels 2/3 = DO1
wavetable bus, selected by `CH`), frequency advance, envelope advance.
`>> 17` on the signed product is arithmetic shift, i.e. floor division
by `2^17`.  Returns `((do2L, do2R), (do1L, do1R))` and the new slot. -/
def slot_tick (vol : Nat → Int) (mem : Nat → Nat) (s : Slot) :
    ((Int × Int) × (Int × Int)) × Slot :=
  let s := loop_wrap s
  let sample := fetch_sample mem s
  let outl := Int.fdiv (sample * vol (s.TL + pan_left s.pan + (s.env_vol >>> 23))) (2 ^ 17)
  let outr := Int.fdiv (sample * vol (s.TL + pan_right s.pan + (s.env_vol >>> 23))) (2 ^ 17)
  let out := if s.CH then (((0 : Int), (0 : Int)), (outl, outr))
             else ((outl, outr), ((0 : Int), (0 : Int)))
  let s := { s with stepptr := (s.stepptr + s.step) % 2 ^ 32 }
  (out, env_advance s)

/-- `n` iterations of the per-sample loop (the loop does not re-check
`active`: a voice deactivated mid-buffer keeps being stepped). -/
def slot_run (vol : Nat → Int) (mem : Nat → Nat) :
    Nat → Slot → List ((Int × Int) × (Int × Int)) × Slot
  | 0, s => ([], s)
  | n + 1, s =>
    let os := slot_tick vol mem s
    let rest := slot_run vol mem n os.2
    (os.1 :: rest.1, rest.2)

/-- The contribution of one slot to the mix buffer over `n` output
samples, as guarded in `sound_stream_update`: an inactive slot is
skipped entirely (zero contribution, state untouched). -/
def slot_mix (vol : Nat → Int) (mem : Nat → Nat) (n : Nat) (s : Slot) :
    List ((Int × Int) × (Int × Int)) × Slot :=
  if s.active then slot_run vol mem n s
  else (List.replicate n ((0, 0), (0, 0)), s)

/-- The slot-state effect of one `sound_stream_update` call over `n`
output samples (each of the 24 slots is run independently). -/
def pcm_update_slots (vol : Nat → Int) (n : Nat) (c : Chip) : Chip :=
  { c with slots := fun i =>
      if i < 24 then (slot_mix vol c.mem n (c.slots i)).2 else c.slots i }

/-! ### FM clock resampler (`sound_stream_update`, FM half) -/

/-- One output sample of the FM resampler: `m_fm_pos += FM_STEP`; if
`BIT(m_fm_pos, 24)` the FM engine is clocked one extra time and the
accumulator is masked back to 24 bits.  Returns the new accumulator and
the number of extra clocks (0 or 1).  `step` abstracts the compile-time
`FM_STEP` constant (a 0.24 fixed-point fraction, hence `< 2^24`). -/
def fm_pos_step (step pos : Nat) : Nat × Nat :=
  let p := pos + step
  if (p >>> 24) &&& 1 = 1 then (p &&& 0xffffff, 1) else (p, 0)

/-- `n` output samples of the FM resampler: final accumulator and total
number of extra FM clocks issued. -/
def fm_pos_run (step : Nat) : Nat → Nat → Nat × Nat
  | 0, pos => (pos, 0)
  | n + 1, pos =>
    let pe := fm_pos_step step pos
    let rest := fm_pos_run step n pe.1
    (rest.1, pe.2 + rest.2)

/-! ### Invariants for the activity claim -/

/-- The activity invariant of one voice slot: the `active` flag agrees
with "octave is not the mute sentinel 8, and the envelope is not in a
terminal phase (3 = Decay2 done, 5 = Release done)". -/
def SlotInv (s : Slot) : Prop :=
  s.active = true ↔ (s.octave ≠ 8 ∧ s.env_step ≠ 3 ∧ s.env_step ≠ 5)

instance (s : Slot) : Decidable (SlotInv s) := by
  unfold SlotInv; infer_instance

/-- Auxiliary invariant used across the samples of one stream update:
a slot inside the per-sample loop is either still active or sits in the
exact silent configuration produced by the terminal envelope cases. -/
def TickInv (s : Slot) : Prop :=
  s.active = true ∨
    (s.active = false ∧ (s.env_step = 3 ∨ s.env_step = 5) ∧
     s.env_vol = 2 ^ 31 ∧ s.env_vol_step = 0 ∧ s.env_vol_lim = 0)

instance (s : Slot) : Decidable (TickInv s) := by
  unfold TickInv; infer_instance

/-- The chip-level activity invariant: every slot satisfies `SlotInv`,
and every slot's octave field agrees with the bits 4–7 of its group-2
register image (register `0x38 + snum`), which holds because the group-2
case of `C_w` is the only writer of the octave field and always stores
the register image alongside. -/
def ChipInv (c : Chip) : Prop :=
  ∀ n, n < 24 →
    SlotInv (c.slots n) ∧ (c.slots n).octave = ((c.pcmregs (56 + n)) &&& 0xf0) >>> 4

instance (c : Chip) : Decidable (ChipInv c) := by
  unfold ChipInv
  infer_instance

/-- A concrete chip with all slots silenced, for witnesses. -/
def chip0 : Chip :=
  { slots := fun _ => { slot0 with env_step := 5, env_vol := 2 ^ 31 },
    pcmregs := fun _ => 0, wavetblhdr := 0, memmode := 0, memadr := 0,
    fm_l := 0, fm_r := 0, pcm_l := 0, pcm_r := 0, port_AB := 0, port_C := 0,
    lastport := 0, next_status_id := false,
    fm := { new2 := false, newflag := false, status := 0, busy := false, ld := false },
    mem := fun a => (a % 251) + 1, fm_pos := 0 }

end YMF278B

namespace Mac128

/-- Concrete interrupt state for witnesses: nothing latched, nothing
asserted. -/
def irq0 : IrqState :=
  { scc_interrupt := false, via_interrupt := false, scsi_interrupt := false,
    last_taken_interrupt := -1, lines := fun _ => false }

/-- Concrete RAM-window state for witnesses. -/
def ram0 : RamState :=
  { overlay := true, ram := fun _ => 0, rom := fun a => a % 7, ram_mask := 0x1ffff }

/-- Latch new values of the three interrupt inputs (each input is set by
its owning device's callback; quantifying over all three at once covers
every such change). -/
def set_inputs (s : IrqState) (via scc scsi : Bool) : IrqState :=
  { s with via_interrupt := via, scc_interrupt := scc, scsi_interrupt := scsi }

end Mac128

namespace Mac128

/-! ## Theorems: machine glue -/

lemma field_interrupts_spec (s : IrqState) (hinv : IrqInv s) :
    (∀ l, (field_interrupts s).lines l = true ↔
        0 ≤ takeInterrupt s ∧ (l : Int) = takeInterrupt s) ∧
    IrqInv (field_interrupts s) := by
  have hchar : ∀ l, (field_interrupts s).lines l = true ↔
      0 ≤ takeInterrupt s ∧ (l : Int) = takeInterrupt s := by
    intro l
    unfold field_interrupts
    by_cases hl : s.last_taken_interrupt > -1 <;>
      by_cases ht : takeInterrupt s > -1 <;>
        simp only [hl, ht, if_true, if_false, ite_true, ite_false, setInputLine]
    · by_cases h1 : l = (takeInterrupt s).toNat
      · simp only [h1, ite_true]
        constructor
        · intro _
          omega
        · intro _
          trivial
      · simp only [h1, ite_false]
        by_cases h2 : l = s.last_taken_interrupt.toNat
        · simp only [h2, ite_true]
          constructor
          · intro h
            exact absurd h (by simp)
          · intro h
            omega
        · simp only [h2, ite_false]
          constructor
          · intro h
            exact absurd (hinv l h) (by omega)
          · intro h
            omega
    · by_cases h2 : l = s.last_taken_interrupt.toNat
      · simp only [h2, ite_true]
        constructor
        · intro h
          exact absurd h (by simp)
        · intro h
          omega
      · simp only [h2, ite_false]
        constructor
        · intro h
          exact absurd (hinv l h) (by omega)
        · intro h
          omega
    · by_cases h1 : l = (takeInterrupt s).toNat
      · simp only [h1, ite_true]
        constructor
        · intro _
          omega
        · intro _
          trivial
      · simp only [h1, ite_false]
        constructor
        · intro h
          exact absurd (hinv l h) (by omega)
        · intro h
          omega
    · constructor
      · intro h
        exact absurd (hinv l h) (by omega)
      · intro h
        omega
  refine ⟨hchar, fun l hli => ?_⟩
  rw [hchar l] at hli
  unfold field_interrupts
  by_cases hl : s.last_taken_interrupt > -1 <;>
    by_cases ht : takeInterrupt s > -1 <;>
      simp only [hl, ht, if_true, if_false, ite_true, ite_false] <;>
      omega

/-- C3: after any change of the latched interrupt inputs, the arbiter
asserts CPU level 2 iff `scc ∨ scsi`, else level 1 iff `via`, else
nothing; the previously asserted line is cleared before the new one is
asserted, so at most one line is asserted at any time (given that at
most the recorded line was asserted before). -/
theorem interrupt_arbiter_claim (s : IrqState) (via scc scsi : Bool)
    (hinv : IrqInv s) :
    (∀ l, (field_interrupts (set_inputs s via scc scsi)).lines l = true ↔
        ((scc || scsi) = true ∧ l = 2) ∨
        ((scc || scsi) = false ∧ via = true ∧ l = 1)) ∧
    IrqInv (field_interrupts (set_inputs s via scc scsi)) ∧
    (∀ l m, (field_interrupts (set_inputs s via scc scsi)).lines l = true →
      (field_interrupts (set_inputs s via scc scsi)).lines m = true → l = m) := by
  have hinv' : IrqInv (set_inputs s via scc scsi) := hinv
  obtain ⟨hchar, hinv2⟩ := field_interrupts_spec _ hinv'
  have htake : takeInterrupt (set_inputs s via scc scsi) =
      if (scc || scsi) = true then 2 else if via = true then 1 else -1 := by
    unfold takeInterrupt set_inputs
    cases scc <;> cases scsi <;> cases via <;> simp
  have hchar' : ∀ l, (field_interrupts (set_inputs s via scc scsi)).lines l = true ↔
      ((scc || scsi) = true ∧ l = 2) ∨
      ((scc || scsi) = false ∧ via = true ∧ l = 1) := by
    intro l
    rw [hchar l, htake]
    cases scc <;> cases scsi <;> cases via <;> simp <;> omega
  refine ⟨hchar', hinv2, fun l m hli hmi => ?_⟩
  rw [hchar' l] at hli
  rw [hchar' m] at hmi
  rcases hli with ⟨_, rfl⟩ | ⟨_, _, rfl⟩ <;>
    rcases hmi with ⟨_, rfl⟩ | ⟨h, _, rfl⟩ <;> simp_all

/-- Witness for C3: from a quiescent state, raising VIA asserts exactly
level 1. -/
theorem interrupt_arbiter_claim_witness :
    IrqInv irq0 ∧
    (field_interrupts (set_inputs irq0 true false false)).lines 1 = true ∧
    (field_interrupts (set_inputs irq0 true false false)).lines 2 = false := by
  have hinv : IrqInv irq0 := by
    intro l h
    simp [irq0] at h
  refine ⟨hinv, ?_, ?_⟩
  · exact ((interrupt_arbiter_claim irq0 true false false hinv).1 1).mpr
      (Or.inr (by simp))
  · have h := (interrupt_arbiter_claim irq0 true false false hinv).1 2
    simp only [Bool.false_or] at h
    cases hq : (field_interrupts (set_inputs irq0 true false false)).lines 2
    · rfl
    · exact absurd (h.mp hq) (by simp)

lemma ram_w_overlay (s : RamState) (offset data mem_mask : Nat)
    (ho : s.overlay = true) : ram_w s offset data mem_mask = s := by
  simp [ram_w, ho]

lemma ram_w_spec (s : RamState) (offset data mem_mask : Nat)
    (ho : s.overlay = false) :
    (ram_w s offset data mem_mask).overlay = false ∧
    (ram_w s offset data mem_mask).rom = s.rom ∧
    (ram_w s offset data mem_mask).ram_mask = s.ram_mask ∧
    (ram_w s offset data mem_mask).ram (offset &&& s.ram_mask) =
      combineData (s.ram (offset &&& s.ram_mask)) data mem_mask ∧
    ∀ a, a ≠ offset &&& s.ram_mask →
      (ram_w s offset data mem_mask).ram a = s.ram a := by
  refine ⟨by simp [ram_w, ho], by simp [ram_w, ho], by simp [ram_w, ho],
    by simp [ram_w, ho], fun a ha => ?_⟩
  simp [ram_w, ho, ha]

lemma ram_w_se_spec (s : RamState) (offset data mem_mask : Nat) :
    (ram_w_se s offset data mem_mask).overlay = false ∧
    (ram_w_se s offset data mem_mask).rom = s.rom ∧
    (ram_w_se s offset data mem_mask).ram_mask = s.ram_mask ∧
    (ram_w_se s offset data mem_mask).ram (offset &&& s.ram_mask) =
      combineData (s.ram (offset &&& s.ram_mask)) data mem_mask ∧
    ∀ a, a ≠ offset &&& s.ram_mask →
      (ram_w_se s offset data mem_mask).ram a = s.ram a := by
  refine ⟨rfl, rfl, rfl, by simp [ram_w_se], fun a ha => ?_⟩
  simp [ram_w_se, ha]

/-- C4: on base variants (512ke/Plus maps) the low-window write handler
is a no-op while the overlay is active and combines the data into
`RAM[offset & ram_mask]` when it is inactive; on the SE map the handler
clears the overlay and always performs the RAM write. -/
theorem overlay_ram_write_claim :
    (∀ (v : Variant) (s : RamState) (offset data mem_mask : Nat),
        v ≠ .macse → s.overlay = true →
        low_ram_write v s offset data mem_mask = s) ∧
    (∀ (v : Variant) (s : RamState) (offset data mem_mask : Nat),
        v ≠ .macse → s.overlay = false →
        (low_ram_write v s offset data mem_mask).overlay = false ∧
        (low_ram_write v s offset data mem_mask).rom = s.rom ∧
        (low_ram_write v s offset data mem_mask).ram_mask = s.ram_mask ∧
        (low_ram_write v s offset data mem_mask).ram (offset &&& s.ram_mask) =
          combineData (s.ram (offset &&& s.ram_mask)) data mem_mask ∧
        (∀ a, a ≠ offset &&& s.ram_mask →
          (low_ram_write v s offset data mem_mask).ram a = s.ram a)) ∧
    (∀ (s : RamState) (offset data mem_mask : Nat),
        (low_ram_write .macse s offset data mem_mask).overlay = false ∧
        (low_ram_write .macse s offset data mem_mask).rom = s.rom ∧
        (low_ram_write .macse s offset data mem_mask).ram_mask = s.ram_mask ∧
        (low_ram_write .macse s offset data mem_mask).ram (offset &&& s.ram_mask) =
          combineData (s.ram (offset &&& s.ram_mask)) data mem_mask ∧
        (∀ a, a ≠ offset &&& s.ram_mask →
          (low_ram_write .macse s offset data mem_mask).ram a = s.ram a)) := by
  refine ⟨?_, ?_, ?_⟩
  · rintro (_ | _ | _) s offset data mem_mask hv ho
    · exact ram_w_overlay s offset data mem_mask ho
    · exact ram_w_overlay s offset data mem_mask ho
    · exact absurd rfl hv
  · rintro (_ | _ | _) s offset data mem_mask hv ho
    · exact ram_w_spec s offset data mem_mask ho
    · exact ram_w_spec s offset data mem_mask ho
    · exact absurd rfl hv
  · intro s offset data mem_mask
    exact ram_w_se_spec s offset data mem_mask

/-- Witness for C4: a full-mask write with the overlay active is dropped
on the Plus and lands (clearing the overlay) on the SE. -/
theorem overlay_ram_write_claim_witness :
    low_ram_write .macplus ram0 3 0xbeef 0xffff = ram0 ∧
    (low_ram_write .macse ram0 3 0xbeef 0xffff).overlay = false ∧
    (low_ram_write .macse ram0 3 0xbeef 0xffff).ram 3 =
      combineData (ram0.ram 3) 0xbeef 0xffff := by
  refine ⟨overlay_ram_write_claim.1 .macplus ram0 3 0xbeef 0xffff (by simp) rfl,
    (overlay_ram_write_claim.2.2 ram0 3 0xbeef 0xffff).1, ?_⟩
  have h := (overlay_ram_write_claim.2.2 ram0 3 0xbeef 0xffff).2.2.2.1
  have hm : 3 &&& ram0.ram_mask = 3 := by decide
  rwa [hm] at h

/-- C5: the pre-access adjustment of `via_sync` rolls the cycle counter
forward to exactly the least multiple of 10 that is `≥ cur + 2`, the
post-access `via_sync_end` consumes exactly 4 more cycles, and the whole
adjustment is the same deterministic function of the starting cycle
count for reads (`mac_via_r`) and writes (`mac_via_w`). -/
theorem via_sync_claim (c : Nat) :
    (c + 2 ≤ via_sync_start_cycle c ∧ 10 ∣ via_sync_start_cycle c ∧
      ∀ t, 10 ∣ t → c + 2 ≤ t → via_sync_start_cycle c ≤ t) ∧
    mac_via_r_end_cycle c = mac_via_w_end_cycle c ∧
    mac_via_r_end_cycle c = via_sync_start_cycle c + 4 ∧
    via_sync_icount_adjust c = (c : Int) - (via_sync_start_cycle c : Int) ∧
    via_sync_end_icount_adjust = -4 := by
  refine ⟨⟨?_, ?_, ?_⟩, rfl, rfl, rfl, rfl⟩
  · simp only [via_sync_start_cycle]
    omega
  · simp only [via_sync_start_cycle]
    exact dvd_mul_left 10 _
  · rintro t ⟨k, rfl⟩ hct
    simp only [via_sync_start_cycle]
    omega

lemma pwm_push_small (s : PwmState) (b : Nat) (h : s.pwm_count_total + 1 ≠ 100) :
    pwm_push s b =
      { s with pwm_count_1 := s.pwm_count_1 + value_to_length.getD (b % 64) 0,
               pwm_count_total := s.pwm_count_total + 1 } := by
  simp [pwm_push, h]

lemma pwm_pushList_partial (bs : List Nat) (s : PwmState)
    (h : s.pwm_count_total + bs.length ≤ 99) :
    pwm_pushList s bs =
      { s with pwm_count_1 := s.pwm_count_1 + pwm_sum bs,
               pwm_count_total := s.pwm_count_total + bs.length } := by
  induction bs generalizing s with
  | nil =>
    simp only [pwm_pushList, List.foldl_nil, pwm_sum, List.map_nil, List.sum_nil,
      List.length_nil, Nat.add_zero]
  | cons b bs ih =>
    have h1 : s.pwm_count_total + 1 ≠ 100 := by
      simp only [List.length_cons] at h
      omega
    have h2 : s.pwm_count_total + 1 + bs.length ≤ 99 := by
      simp only [List.length_cons] at h
      omega
    simp only [pwm_pushList, List.foldl_cons]
    have hstep := pwm_push_small s b h1
    rw [show List.foldl pwm_push (pwm_push s b) bs = pwm_pushList (pwm_push s b) bs from rfl,
        hstep, ih _ (by simpa using h2)]
    simp only [pwm_sum, List.map_cons, List.sum_cons, List.length_cons]
    congr 1 <;> omega

lemma pwm_window (s : PwmState) (bs : List Nat) (h100 : bs.length = 100)
    (ht : s.pwm_count_total = 0) (hc : s.pwm_count_1 = 0) :
    pwm_pushList s bs =
      { pwm_count_total := 0, pwm_count_1 := 0,
        pwm_current_rpm := (s.pwm_current_rpm.2, pwm_window_rpm (pwm_sum bs)),
        commits := if pwm_window_rpm (pwm_sum bs) = s.pwm_current_rpm.2 ∧
                      s.pwm_current_rpm.2 ≠ s.pwm_current_rpm.1
                   then s.commits ++ [pwm_window_rpm (pwm_sum bs)]
                   else s.commits } := by
  rcases List.eq_nil_or_concat bs with rfl | ⟨bs', b, rfl⟩
  · simp at h100
  · rw [List.concat_eq_append] at h100 ⊢
    have hlen : bs'.length = 99 := by
      simpa using h100
    have hsplit : pwm_pushList s (bs' ++ [b]) =
        pwm_push (pwm_pushList s bs') b := by
      simp [pwm_pushList, List.foldl_append]
    rw [hsplit, pwm_pushList_partial bs' s (by omega)]
    have hsum : pwm_sum (bs' ++ [b]) = pwm_sum bs' + value_to_length.getD (b % 64) 0 := by
      simp [pwm_sum]
    rw [pwm_push]
    simp only [ht, hc, Nat.zero_add, hlen, hsum, pwm_window_rpm]
    norm_num

/-- C1 (amended): over two consecutive 100-pulse windows started at a
window boundary, the commit log grows exactly by: a commit of the first
window's rpm iff it matches the previous reading (and that reading
differed from the one before), then a commit of the second window's rpm
iff the two windows' computed rpm agree and differ from the reading
before them.  In particular two windows with different computed RPMs
never commit at the second window boundary, and two windows with equal
computed RPMs preceded by a different reading commit exactly once. -/
theorem pwm_debounce_claim (s : PwmState) (bsA bsB : List Nat)
    (hA : bsA.length = 100) (hB : bsB.length = 100)
    (ht : s.pwm_count_total = 0) (hc : s.pwm_count_1 = 0) :
    (pwm_pushList s (bsA ++ bsB)).commits =
      ((if pwm_window_rpm (pwm_sum bsA) = s.pwm_current_rpm.2 ∧
           s.pwm_current_rpm.2 ≠ s.pwm_current_rpm.1
        then s.commits ++ [pwm_window_rpm (pwm_sum bsA)] else s.commits) ++
       (if pwm_window_rpm (pwm_sum bsB) = pwm_window_rpm (pwm_sum bsA) ∧
           pwm_window_rpm (pwm_sum bsA) ≠ s.pwm_current_rpm.2
        then [pwm_window_rpm (pwm_sum bsB)] else [])) ∧
    (pwm_window_rpm (pwm_sum bsB) ≠ pwm_window_rpm (pwm_sum bsA) →
      (pwm_pushList s (bsA ++ bsB)).commits =
        (if pwm_window_rpm (pwm_sum bsA) = s.pwm_current_rpm.2 ∧
            s.pwm_current_rpm.2 ≠ s.pwm_current_rpm.1
         then s.commits ++ [pwm_window_rpm (pwm_sum bsA)] else s.commits)) ∧
    (pwm_window_rpm (pwm_sum bsB) = pwm_window_rpm (pwm_sum bsA) →
      pwm_window_rpm (pwm_sum bsA) ≠ s.pwm_current_rpm.2 →
      (pwm_pushList s (bsA ++ bsB)).commits =
        s.commits ++ [pwm_window_rpm (pwm_sum bsB)]) := by
  have hsplit : pwm_pushList s (bsA ++ bsB) =
      pwm_pushList (pwm_pushList s bsA) bsB := by
    simp [pwm_pushList, List.foldl_append]
  have hwA := pwm_window s bsA hA ht hc
  have hchar : (pwm_pushList s (bsA ++ bsB)).commits =
      ((if pwm_window_rpm (pwm_sum bsA) = s.pwm_current_rpm.2 ∧
           s.pwm_current_rpm.2 ≠ s.pwm_current_rpm.1
        then s.commits ++ [pwm_window_rpm (pwm_sum bsA)] else s.commits) ++
       (if pwm_window_rpm (pwm_sum bsB) = pwm_window_rpm (pwm_sum bsA) ∧
           pwm_window_rpm (pwm_sum bsA) ≠ s.pwm_current_rpm.2
        then [pwm_window_rpm (pwm_sum bsB)] else [])) := by
    rw [hsplit, hwA, pwm_window _ bsB hB rfl rfl]
    split_ifs with h1 h2 h2 <;> simp_all
  refine ⟨hchar, fun hne => ?_, fun heq hne => ?_⟩
  · rw [hchar]
    have hz : (if pwm_window_rpm (pwm_sum bsB) = pwm_window_rpm (pwm_sum bsA) ∧
          pwm_window_rpm (pwm_sum bsA) ≠ s.pwm_current_rpm.2
        then [pwm_window_rpm (pwm_sum bsB)] else []) = ([] : List ℚ) :=
      if_neg (fun hcon => hne hcon.1)
    rw [hz, List.append_nil]
  · rw [hchar]
    have h2 : (if pwm_window_rpm (pwm_sum bsB) = pwm_window_rpm (pwm_sum bsA) ∧
          pwm_window_rpm (pwm_sum bsA) ≠ s.pwm_current_rpm.2
        then [pwm_window_rpm (pwm_sum bsB)] else []) =
        [pwm_window_rpm (pwm_sum bsB)] := if_pos ⟨heq, hne⟩
    have h1 : (if pwm_window_rpm (pwm_sum bsA) = s.pwm_current_rpm.2 ∧
          s.pwm_current_rpm.2 ≠ s.pwm_current_rpm.1
        then s.commits ++ [pwm_window_rpm (pwm_sum bsA)] else s.commits) =
        s.commits := if_neg (fun hcon => hne hcon.1)
    rw [h1, h2]

/-- Counterexample for C1 as stated: the first window is 100 pulses of
byte `0x00` (pulse-length sum 0), the second is 100 pulses of byte
`0x01` (pulse-length sum 100).  The sums differ, yet both windows decode
to internal index 0 (the integer division and the lower clamp collapse
them), hence the same rpm, and the second window boundary commits a new
motor speed — refuting "two consecutive windows with different
pulse-length sums never commit". -/
theorem pwm_different_sums_commit_cex :
    pwm_sum (List.replicate 100 0) ≠ pwm_sum (List.replicate 100 1) ∧
    (pwm_pushList pwm_reset
        (List.replicate 100 0 ++ List.replicate 100 1)).commits =
      [pwm_window_rpm 100] := by
  have hs0 : pwm_sum (List.replicate 100 0) = 0 := by decide
  have hs1 : pwm_sum (List.replicate 100 1) = 100 := by decide
  have hw0 : pwm_window_rpm 0 = pwm_rpm 0 := by
    rw [pwm_window_rpm, show pwm_internal_index 0 100 = 0 from by decide]
  have hw100 : pwm_window_rpm 100 = pwm_rpm 0 := by
    rw [pwm_window_rpm, show pwm_internal_index 100 100 = 0 from by decide]
  have hne : pwm_rpm 0 ≠ 605 / 2 := by
    unfold pwm_rpm
    norm_num
  constructor
  · rw [hs0, hs1]
    decide
  · have hsplit : pwm_pushList pwm_reset
        (List.replicate 100 0 ++ List.replicate 100 1) =
        pwm_pushList (pwm_pushList pwm_reset (List.replicate 100 0))
          (List.replicate 100 1) := by
      simp [pwm_pushList, List.foldl_append]
    rw [hsplit, pwm_window pwm_reset _ (by simp) rfl rfl,
        pwm_window _ _ (by simp) rfl rfl]
    simp only [pwm_reset, hs0, hs1, hw0, hw100]
    rw [if_pos ⟨trivial, hne⟩, if_neg (fun hcon => hcon.2 rfl)]
    simp

/-- Witness for C1 (amended): windows with different decoded RPMs (sums
0 and 200) commit nothing from a reset state; windows with equal decoded
RPMs preceded by the 302.5 reset reading commit exactly once. -/
theorem pwm_debounce_claim_witness :
    (pwm_pushList pwm_reset
        (List.replicate 100 0 ++ List.replicate 100 3)).commits = [] ∧
    (pwm_pushList pwm_reset
        (List.replicate 100 1 ++ List.replicate 100 0)).commits =
      [pwm_window_rpm (pwm_sum (List.replicate 100 0))] := by
  have hs0 : pwm_sum (List.replicate 100 0) = 0 := by decide
  have hs1 : pwm_sum (List.replicate 100 1) = 100 := by decide
  have hs3 : pwm_sum (List.replicate 100 3) = 200 := by decide
  have hw0 : pwm_window_rpm 0 = pwm_rpm 0 := by
    rw [pwm_window_rpm, show pwm_internal_index 0 100 = 0 from by decide]
  have hw100 : pwm_window_rpm 100 = pwm_rpm 0 := by
    rw [pwm_window_rpm, show pwm_internal_index 100 100 = 0 from by decide]
  have hw200 : pwm_window_rpm 200 = pwm_rpm 9 := by
    rw [pwm_window_rpm, show pwm_internal_index 200 100 = 9 from by decide]
  have hne90 : pwm_rpm 9 ≠ pwm_rpm 0 := by
    unfold pwm_rpm
    norm_num
  have hne : pwm_rpm 0 ≠ 605 / 2 := by
    unfold pwm_rpm
    norm_num
  constructor
  · have h := (pwm_debounce_claim pwm_reset (List.replicate 100 0)
      (List.replicate 100 3) (by simp) (by simp) rfl rfl).2.1
      (by rw [hs0, hs3, hw0, hw200]; exact hne90)
    rw [h, if_neg (fun hcon => hcon.2 rfl)]
    rfl
  · exact (pwm_debounce_claim pwm_reset (List.replicate 100 1)
      (List.replicate 100 0) (by simp) (by simp) rfl rfl).2.2
      (by rw [hs0, hs1, hw0, hw100]) (by rw [hs1, hw100]; exact hne)

/-- Witness for C5: from cycle 17, the access lands at cycle 20 and
completes at 24. -/
theorem via_sync_claim_witness :
    via_sync_start_cycle 17 = 20 ∧ (10 : Nat) ∣ 30 ∧ 17 + 2 ≤ 30 ∧
    via_sync_start_cycle 17 ≤ 30 ∧ mac_via_r_end_cycle 17 = 24 := by
  refine ⟨by decide, by decide, by decide, ?_, by decide⟩
  exact (via_sync_claim 17).1.2.2 30 (by decide) (by decide)

end Mac128

namespace YMF278B

/-! ## Theorems: synthesis engine -/

/-- C8: when the phase accumulator has reached or passed the end
address, the loop wrap yields exactly `phase_old - end + loop` — the
32-bit wraparound computation coincides with the exact integer value,
which is non-negative whenever `end > loop` and `phase_old ≥ end`. -/
theorem loop_wrap_claim (s : Slot) (hp : s.stepptr < 2 ^ 32)
    (hE : s.endaddr ≤ s.stepptr) (hL : s.loopaddr < s.endaddr) :
    ((loop_wrap s).stepptr : Int) = (s.stepptr : Int) - s.endaddr + s.loopaddr ∧
    (0 : Int) ≤ (s.stepptr : Int) - s.endaddr + s.loopaddr ∧
    (loop_wrap s).stepptr = s.stepptr - s.endaddr + s.loopaddr := by
  have hE32 : s.endaddr < 2 ^ 32 := lt_of_le_of_lt hE hp
  have h32 : (2 : Nat) ^ 32 = 4294967296 := by norm_num
  have hwrap : (loop_wrap s).stepptr = s.stepptr - s.endaddr + s.loopaddr := by
    rw [loop_wrap, if_pos hE]
    show (s.stepptr + (2 ^ 32 - s.endaddr % 2 ^ 32) + s.loopaddr) % 2 ^ 32 =
      s.stepptr - s.endaddr + s.loopaddr
    rw [h32] at *
    omega
  refine ⟨?_, by omega, hwrap⟩
  rw [hwrap]
  omega

/-- Witness for C8: start 0, loop 30000, end 70000, phase 100000 wraps
to 60000. -/
theorem loop_wrap_claim_witness :
    (loop_wrap { slot0 with startaddr := 0, stepptr := 100000, endaddr := 70000, loopaddr := 30000 }).stepptr = 60000 := by
  have h := (loop_wrap_claim { slot0 with startaddr := 0, stepptr := 100000, endaddr := 70000, loopaddr := 30000 } (by norm_num) (by norm_num) (by norm_num)).2.2
  rw [h]
  rfl

lemma fm_pos_step_char (step pos : Nat) (hs : step < 2 ^ 24) (hp : pos < 2 ^ 24) :
    fm_pos_step step pos =
      if 2 ^ 24 ≤ pos + step then (pos + step - 2 ^ 24, 1) else (pos + step, 0) := by
  rw [fm_pos_step]
  have hshift : (pos + step) >>> 24 = (pos + step) / 2 ^ 24 :=
    Nat.shiftRight_eq_div_pow _ _
  have hand : ((pos + step) / 2 ^ 24) &&& 1 = ((pos + step) / 2 ^ 24) % 2 :=
    Nat.and_one_is_mod _
  have hmask : (pos + step) &&& 0xffffff = (pos + step) % 2 ^ 24 := by
    rw [show (0xffffff : Nat) = 2 ^ 24 - 1 from by norm_num,
      Nat.and_pow_two_sub_one_eq_mod]
  by_cases hc : 2 ^ 24 ≤ pos + step
  · have hdiv : (pos + step) / 2 ^ 24 = 1 := by
      rw [show (2 : Nat) ^ 24 = 16777216 from by norm_num] at *
      omega
    rw [if_pos hc, if_pos (by rw [hshift, hdiv]; decide), hmask]
    rw [show (2 : Nat) ^ 24 = 16777216 from by norm_num] at *
    rw [Nat.mod_eq_sub_mod hc, Nat.mod_eq_of_lt (by omega)]
  · have hdiv : (pos + step) / 2 ^ 24 = 0 := Nat.div_eq_of_lt (by omega)
    rw [if_neg hc, if_neg (by rw [hshift, hdiv]; decide)]

lemma fm_pos_run_char (step : Nat) (hs : step < 2 ^ 24) :
    ∀ (n pos : Nat), pos < 2 ^ 24 →
      fm_pos_run step n pos = ((pos + n * step) % 2 ^ 24, (pos + n * step) / 2 ^ 24) := by
  intro n
  induction n with
  | zero =>
    intro pos hp
    simp only [fm_pos_run, Nat.zero_mul, Nat.add_zero, Prod.mk.injEq]
    exact ⟨(Nat.mod_eq_of_lt hp).symm, (Nat.div_eq_of_lt hp).symm⟩
  | succ n ih =>
    intro pos hp
    rw [fm_pos_run, fm_pos_step_char step pos hs hp]
    by_cases hc : 2 ^ 24 ≤ pos + step
    · rw [if_pos hc]
      simp only
      rw [ih (pos + step - 2 ^ 24) (by omega)]
      have hx : pos + (n + 1) * step = pos + step - 2 ^ 24 + n * step + 2 ^ 24 := by
        rw [Nat.succ_mul]
        omega
      rw [hx, Nat.add_mod_right, Nat.add_div_right _ (by positivity)]
      simp [Prod.mk.injEq]
      omega
    · rw [if_neg hc]
      simp only
      rw [ih (pos + step) (by omega)]
      have hx : pos + (n + 1) * step = pos + step + n * step := by
        rw [Nat.succ_mul]
        omega
      rw [hx]
      simp

/-- C9: starting from a zeroed 24-bit accumulator, over `N` output
samples with fractional step `S < 2^24` the number of extra FM clocks
issued is exactly `⌊N·S / 2^24⌋` (hence certainly within ±1 of it), and
the accumulator ends at `N·S mod 2^24`. -/
theorem fm_resampler_claim (S N : Nat) (hS : S < 2 ^ 24) :
    (fm_pos_run S N 0).2 = N * S / 2 ^ 24 ∧
    (fm_pos_run S N 0).1 = N * S % 2 ^ 24 ∧
    ((fm_pos_run S N 0).2 : Int) - (N * S / 2 ^ 24 : Nat) ≤ 1 ∧
    ((N * S / 2 ^ 24 : Nat) : Int) - (fm_pos_run S N 0).2 ≤ 1 := by
  have h := fm_pos_run_char S hS N 0 (by positivity)
  rw [Nat.zero_add] at h
  rw [h]
  refine ⟨rfl, rfl, by omega, by omega⟩

/-- Witness for C9: three samples at step 9000000 issue exactly one
extra FM clock. -/
theorem fm_resampler_claim_witness :
    (fm_pos_run 9000000 3 0).2 = 3 * 9000000 / 2 ^ 24 ∧
    3 * 9000000 / 2 ^ 24 = 1 := by
  exact ⟨(fm_resampler_claim 9000000 3 (by norm_num)).1, by norm_num⟩

/-- C10: while the FM bank's NEW2 flag is clear, a data write to port
offset 5 is dropped before reaching the PCM command decoder (the whole
device state, in particular the PCM register file and all 24 voice
slots, is unchanged) and a read from offset 5 returns 0; and no other
port offset ever touches the PCM register file or the slots, so the PCM
register file is reachable only through offset 5 after NEW2 is set. -/
theorem new2_gating_claim :
    (∀ (fm_write : FMState → Nat → Nat → FMState) (c : Chip) (data : Nat),
        c.fm.new2 = false → ymf_write fm_write c 5 data = c) ∧
    (∀ (busy_bit ld_bit : Nat) (frr : FMState → Nat → Nat) (c : Chip),
        c.fm.new2 = false → ymf_read busy_bit ld_bit frr c 5 = (0, c)) ∧
    (∀ (fm_write : FMState → Nat → Nat → FMState) (c : Chip) (offset data : Nat),
        offset % 8 ≠ 5 →
        (ymf_write fm_write c offset data).pcmregs = c.pcmregs ∧
        (ymf_write fm_write c offset data).slots = c.slots) := by
  refine ⟨?_, ?_, ?_⟩
  · intro fmw c data h
    simp [ymf_write, h]
  · intro bb lb frr c h
    simp [ymf_read, h]
  · intro fmw c offset data h
    have h8 : offset % 8 < 8 := Nat.mod_lt offset (by norm_num)
    simp only [ymf_write]
    set m := offset % 8 with hm
    interval_cases m <;>
      simp_all [timer_busy_start]

/-- Witness for C10: on a concrete chip with NEW2 clear, a data write to
offset 5 is the identity and a read from offset 5 returns 0. -/
theorem new2_gating_claim_witness :
    ymf_write (fun fm _ _ => fm) chip0 5 3 = chip0 ∧
    ymf_read 1 2 (fun _ _ => 0) chip0 5 = (0, chip0) ∧
    (ymf_write (fun fm _ _ => fm) chip0 4 3).pcmregs = chip0.pcmregs := by
  refine ⟨new2_gating_claim.1 _ chip0 3 rfl, new2_gating_claim.2.1 1 2 _ chip0 rfl,
    (new2_gating_claim.2.2 _ chip0 4 3 (by norm_num)).1⟩

lemma cdevs_fst (s : Slot) (val : Nat) :
    (compute_decay_env_vol_step s val).1 = s ∨
    (compute_decay_env_vol_step s val).1 = { s with env_preverb := true } := by
  unfold compute_decay_env_vol_step
  split_ifs <;> simp

lemma ce_term (s : Slot) (h : s.env_step = 3 ∨ s.env_step = 5) :
    (compute_envelope s).env_step = s.env_step ∧
    (compute_envelope s).active = false ∧
    (compute_envelope s).env_vol = 2 ^ 31 ∧
    (compute_envelope s).env_vol_step = 0 ∧
    (compute_envelope s).env_vol_lim = 0 ∧
    slotCore (compute_envelope s) = slotCore s ∧
    (compute_envelope s).stepptr = s.stepptr := by
  rcases h with h | h <;>
    simp [compute_envelope, compute_envelope_fuel, h, slotCore, Nat.shiftLeft_eq]

lemma ce_attack (s : Slot) (h : s.env_step = 0) :
    slotCore (compute_envelope s) = slotCore s ∧
    (compute_envelope s).active = s.active ∧
    (compute_envelope s).stepptr = s.stepptr ∧
    (compute_rate s s.AR ≠ 63 → (compute_envelope s).env_step = 0) ∧
    (compute_rate s s.AR = 63 → s.DL ≠ 0 →
      (compute_envelope s).env_step = 1 ∧ (compute_envelope s).env_vol = 0) ∧
    (compute_rate s s.AR = 63 → s.DL = 0 →
      (compute_envelope s).env_step = 2 ∧ (compute_envelope s).env_vol = 0) ∧
    ((compute_envelope s).env_step = 0 ∨ (compute_envelope s).env_step = 1 ∨
      (compute_envelope s).env_step = 2) ∧
    (s.env_preverb = false → (compute_envelope s).env_preverb = false) := by
  by_cases hr : compute_rate s s.AR = 63
  · by_cases hDL : s.DL = 0
    · simp only [compute_envelope, compute_envelope_fuel, h, hr, hDL, if_true,
        ite_true, ne_eq, not_true_eq_false, if_false, ite_false]
      unfold compute_decay_env_vol_step
      split_ifs with h1 h2 <;>
        simp_all [slotCore]
    · simp only [compute_envelope, compute_envelope_fuel, h, hr, hDL, if_true,
        ite_true, ne_eq, not_false_eq_true, if_false, ite_false]
      unfold compute_decay_env_vol_step
      split_ifs with h1 h2 <;>
        simp_all [slotCore]
  · by_cases hr4 : compute_rate s s.AR < 4
    · simp only [compute_envelope, compute_envelope_fuel, h, hr, hr4, if_true,
        ite_true, if_false, ite_false]
      simp_all [slotCore]
    · simp only [compute_envelope, compute_envelope_fuel, h, hr, hr4, if_true,
        ite_true, if_false, ite_false]
      simp_all [slotCore]

lemma ce_d1 (s : Slot) (h : s.env_step = 1) :
    slotCore (compute_envelope s) = slotCore s ∧
    (compute_envelope s).active = s.active ∧
    (compute_envelope s).stepptr = s.stepptr ∧
    (s.DL ≠ 0 → (compute_envelope s).env_step = 1) ∧
    (s.DL = 0 → (compute_envelope s).env_step = 2) := by
  by_cases hDL : s.DL = 0
  · simp only [compute_envelope, compute_envelope_fuel, h, hDL, ne_eq,
      not_true_eq_false, if_false, ite_false]
    unfold compute_decay_env_vol_step
    split_ifs with h1 h2 <;>
      simp_all [slotCore]
  · simp only [compute_envelope, compute_envelope_fuel, h, hDL, ne_eq,
      not_false_eq_true, if_true, ite_true]
    unfold compute_decay_env_vol_step
    split_ifs with h1 h2 <;>
      simp_all [slotCore]

lemma ce_d2 (s : Slot) (h : s.env_step = 2) :
    slotCore (compute_envelope s) = slotCore s ∧
    (compute_envelope s).active = s.active ∧
    (compute_envelope s).stepptr = s.stepptr ∧
    (compute_envelope s).env_step = 2 := by
  simp only [compute_envelope, compute_envelope_fuel, h]
  unfold compute_decay_env_vol_step
  split_ifs with h1 h2 <;>
    simp_all [slotCore]

lemma ce_rel (s : Slot) (h : s.env_step = 4) :
    slotCore (compute_envelope s) = slotCore s ∧
    (compute_envelope s).active = s.active ∧
    (compute_envelope s).stepptr = s.stepptr ∧
    (compute_envelope s).env_step = 4 := by
  simp only [compute_envelope, compute_envelope_fuel, h]
  unfold compute_decay_env_vol_step
  split_ifs with h1 h2 <;>
    simp_all [slotCore]

lemma ce_high (s : Slot) (h : 6 ≤ s.env_step) : compute_envelope s = s := by
  obtain ⟨k, hk⟩ : ∃ k, s.env_step = k + 6 := ⟨s.env_step - 6, by omega⟩
  simp [compute_envelope, compute_envelope_fuel, hk]

lemma ce_active_eq (s : Slot) (h3 : s.env_step ≠ 3) (h5 : s.env_step ≠ 5) :
    (compute_envelope s).active = s.active ∧
    (compute_envelope s).env_step ≠ 3 ∧ (compute_envelope s).env_step ≠ 5 ∧
    slotCore (compute_envelope s) = slotCore s := by
  have hc : s.env_step = 0 ∨ s.env_step = 1 ∨ s.env_step = 2 ∨ s.env_step = 4 ∨
      6 ≤ s.env_step := by omega
  rcases hc with h | h | h | h | h
  · obtain ⟨hcore, hact, _, _, _, _, hsteps, _⟩ := ce_attack s h
    exact ⟨hact, by omega, by omega, hcore⟩
  · obtain ⟨hcore, hact, _, hd1, hd2⟩ := ce_d1 s h
    by_cases hDL : s.DL = 0
    · have := hd2 hDL
      exact ⟨hact, by omega, by omega, hcore⟩
    · have := hd1 hDL
      exact ⟨hact, by omega, by omega, hcore⟩
  · obtain ⟨hcore, hact, _, hst⟩ := ce_d2 s h
    exact ⟨hact, by omega, by omega, hcore⟩
  · obtain ⟨hcore, hact, _, hst⟩ := ce_rel s h
    exact ⟨hact, by omega, by omega, hcore⟩
  · rw [ce_high s h]
    exact ⟨rfl, h3, h5, rfl⟩

lemma ce_active_mono (s : Slot) :
    (compute_envelope s).active = true → s.active = true := by
  intro hact
  by_cases ht : s.env_step = 3 ∨ s.env_step = 5
  · obtain ⟨_, hfalse, _⟩ := ce_term s ht
    rw [hfalse] at hact
    exact absurd hact (by simp)
  · push_neg at ht
    rw [(ce_active_eq s ht.1 ht.2).1] at hact
    exact hact

lemma retrigger_spec (s : Slot) :
    slotCore (retrigger_sample s) = slotCore s ∧
    (retrigger_sample s).stepptr = 0 ∧
    (s.octave ≠ 8 → (retrigger_sample s).active = true) ∧
    (s.octave = 8 → (retrigger_sample s).active = s.active) ∧
    ((retrigger_sample s).env_step = 0 ∨ (retrigger_sample s).env_step = 1 ∨
      (retrigger_sample s).env_step = 2) ∧
    (compute_rate s s.AR ≠ 63 → (retrigger_sample s).env_step = 0) ∧
    (retrigger_sample s).env_preverb = false := by
  by_cases hoct : s.octave = 8
  · have hno : ¬(s.octave ≠ 8) := not_not_intro hoct
    simp only [retrigger_sample, if_neg hno]
    obtain ⟨hcore, hact, hstp, hr0, _, _, hsteps, hpre⟩ :=
      ce_attack (compute_freq_step { s with stepptr := 0, env_step := 0, env_preverb := false }) rfl
    have hre : compute_rate (compute_freq_step { s with stepptr := 0, env_step := 0, env_preverb := false }) (compute_freq_step { s with stepptr := 0, env_step := 0, env_preverb := false }).AR = compute_rate s s.AR := rfl
    refine ⟨?_, ?_, fun hne => absurd hoct hne, fun _ => ?_, hsteps, fun hr => ?_, hpre rfl⟩
    · rw [hcore]
      rfl
    · rw [hstp]
      rfl
    · rw [hact]
      rfl
    · exact hr0 (by rw [hre]; exact hr)
  · have hyes : s.octave ≠ 8 := hoct
    simp only [retrigger_sample, if_pos hyes]
    obtain ⟨hcore, hact, hstp, hr0, _, _, hsteps, hpre⟩ :=
      ce_attack (compute_freq_step { { s with active := true } with stepptr := 0, env_step := 0, env_preverb := false }) (by rfl)
    have hre : compute_rate (compute_freq_step { { s with active := true } with stepptr := 0, env_step := 0, env_preverb := false }) (compute_freq_step { { s with active := true } with stepptr := 0, env_step := 0, env_preverb := false }).AR = compute_rate s s.AR := rfl
    refine ⟨?_, ?_, fun _ => ?_, fun h8 => absurd h8 hoct, hsteps, fun hr => ?_, hpre rfl⟩
    · rw [hcore]
      rfl
    · rw [hstp]
      rfl
    · rw [hact]
      rfl
    · exact hr0 (by rw [hre]; exact hr)

lemma C_w_base_slot_eq (c : Chip) (n g d : Nat) (hn : n < 24) (hg9 : g ≤ 9) :
    C_w_base c (slotreg n g) d =
      { (setSlot c n (slot_dispatch g (c.pcmregs (slotreg n g)) d (c.slots n))) with pcmregs := updFun c.pcmregs (slotreg n g) d } := by
  have h1 : 8 ≤ slotreg n g := by
    simp only [slotreg]
    omega
  have h2 : slotreg n g ≤ 0xf7 := by
    simp only [slotreg]
    omega
  have hdiv : (slotreg n g - 8) / 24 = g := by
    simp only [slotreg]
    omega
  have hmod : (slotreg n g - 8) % 24 = n := by
    simp only [slotreg]
    omega
  simp only [C_w_base]
  rw [if_pos ⟨h1, h2⟩, hdiv, hmod]

lemma C_w_slot_eq (c : Chip) (n g d : Nat) (hn : n < 24) (hg1 : 1 ≤ g) (hg9 : g ≤ 9) :
    C_w c (slotreg n g) d = C_w_base c (slotreg n g) d := by
  have h1 : 8 ≤ slotreg n g := by
    simp only [slotreg]
    omega
  have h2 : slotreg n g ≤ 0xf7 := by
    simp only [slotreg]
    omega
  have hdiv : (slotreg n g - 8) / 24 = g := by
    simp only [slotreg]
    omega
  simp only [C_w]
  rw [if_pos ⟨h1, h2⟩, if_neg (by rw [hdiv]; omega)]

lemma C_w_wave_red (c : Chip) (n d : Nat) (hn : n < 24) :
    C_w c (slotreg n 0) d = C_w_wave c n d := by
  have h1 : 8 ≤ slotreg n 0 := by
    simp only [slotreg]
    omega
  have h2 : slotreg n 0 ≤ 0xf7 := by
    simp only [slotreg]
    omega
  have hdiv : (slotreg n 0 - 8) / 24 = 0 := by
    simp only [slotreg]
    omega
  have hmod : (slotreg n 0 - 8) % 24 = n := by
    simp only [slotreg]
    omega
  simp only [C_w]
  rw [if_pos ⟨h1, h2⟩, if_pos hdiv, hmod]

lemma C_w_slots_at (c : Chip) (n g d : Nat) (hn : n < 24) (hg1 : 1 ≤ g) (hg9 : g ≤ 9) :
    (C_w c (slotreg n g) d).slots n =
      slot_dispatch g (c.pcmregs (slotreg n g)) d (c.slots n) := by
  rw [C_w_slot_eq c n g d hn hg1 hg9, C_w_base_slot_eq c n g d hn hg9]
  simp [setSlot]

/-- C6: key-on (a fresh set of the key bit) enters the Attack phase
(for any attack rate short of the immediate code 63); key-off on an
active voice goes directly to Release from any phase; an attack with
the maximal effective rate 63 transitions in the same call to Decay1
with volume at full-on (attenuation 0); and a zero decay level DL skips
Decay1 straight into Decay2. -/
theorem envelope_transitions_claim :
    (∀ (c : Chip) (snum data : Nat), snum < 24 → data &&& 0x80 ≠ 0 →
      (c.slots snum).KEY_ON = false →
      compute_rate (c.slots snum) ((c.slots snum).AR) ≠ 63 →
      ((C_w c (slotreg snum 4) data).slots snum).env_step = 0 ∧
      ((C_w c (slotreg snum 4) data).slots snum).KEY_ON = true ∧
      ((c.slots snum).octave ≠ 8 →
        ((C_w c (slotreg snum 4) data).slots snum).active = true)) ∧
    (∀ (c : Chip) (snum data : Nat), snum < 24 → data &&& 0x80 = 0 →
      (c.slots snum).active = true →
      ((C_w c (slotreg snum 4) data).slots snum).env_step = 4 ∧
      ((C_w c (slotreg snum 4) data).slots snum).KEY_ON = false) ∧
    (∀ s : Slot, s.env_step = 0 → compute_rate s s.AR = 63 → s.DL ≠ 0 →
      (compute_envelope s).env_step = 1 ∧ (compute_envelope s).env_vol = 0) ∧
    (∀ s : Slot, s.env_step = 1 → s.DL = 0 → (compute_envelope s).env_step = 2) := by
  refine ⟨?_, ?_, ?_, ?_⟩
  · intro c snum data hn hbit hkey hrate
    rw [C_w_slots_at c snum 4 data hn (by norm_num) (by norm_num)]
    have hd4 : slot_dispatch 4 (c.pcmregs (slotreg snum 4)) data (c.slots snum) =
        slot_w4 (c.pcmregs (slotreg snum 4)) data (c.slots snum) := by
      norm_num [slot_dispatch]
    rw [hd4]
    have hKON : ¬(({ c.slots snum with CH := (data &&& 0x10) ≠ 0, pan := data &&& 0xf, DAMP := (data &&& 0x40) ≠ 0 } : Slot).KEY_ON = true) := by
      intro hcon
      have hcon' : (c.slots snum).KEY_ON = true := hcon
      rw [hkey] at hcon'
      exact absurd hcon' (by simp)
    simp only [slot_w4, if_pos hbit, if_neg hKON]
    obtain ⟨_, _, hact, _, _, hr0, _⟩ :=
      retrigger_spec { c.slots snum with CH := (data &&& 0x10) ≠ 0, pan := data &&& 0xf, DAMP := (data &&& 0x40) ≠ 0 }
    have hrate' : compute_rate { c.slots snum with CH := (data &&& 0x10) ≠ 0, pan := data &&& 0xf, DAMP := (data &&& 0x40) ≠ 0 } ({ c.slots snum with CH := (data &&& 0x10) ≠ 0, pan := data &&& 0xf, DAMP := (data &&& 0x40) ≠ 0 } : Slot).AR ≠ 63 := hrate
    refine ⟨hr0 hrate', by trivial, fun h8 => hact h8⟩
  · intro c snum data hn hbit hact
    rw [C_w_slots_at c snum 4 data hn (by norm_num) (by norm_num)]
    have hd4 : slot_dispatch 4 (c.pcmregs (slotreg snum 4)) data (c.slots snum) =
        slot_w4 (c.pcmregs (slotreg snum 4)) data (c.slots snum) := by
      norm_num [slot_dispatch]
    rw [hd4]
    have hACT : ({ c.slots snum with CH := (data &&& 0x10) ≠ 0, pan := data &&& 0xf, DAMP := (data &&& 0x40) ≠ 0 } : Slot).active = true := hact
    have hbit' : ¬(data &&& 0x80 ≠ 0) := fun hcon => hcon hbit
    simp only [slot_w4, if_neg hbit', if_pos hACT]
    obtain ⟨_, _, _, hstep⟩ :=
      ce_rel { { c.slots snum with CH := (data &&& 0x10) ≠ 0, pan := data &&& 0xf, DAMP := (data &&& 0x40) ≠ 0 } with env_step := 4 } (by rfl)
    exact ⟨hstep, by trivial⟩
  · intro s h0 hr hDL
    exact (ce_attack s h0).2.2.2.2.1 hr hDL
  · intro s h1 hDL
    exact (ce_d1 s h1).2.2.2.2 hDL

/-- Witness for C6: key-on on a silent slot of a concrete chip enters
Attack; key-off afterwards enters Release; a max-rate attack with DL=1
lands in Decay1 at volume 0; and DL=0 in Decay1 skips to Decay2. -/
theorem envelope_transitions_claim_witness :
    ((C_w chip0 (slotreg 0 4) 0x80).slots 0).env_step = 0 ∧
    ((C_w chip0 (slotreg 0 4) 0x80).slots 0).active = true ∧
    ((C_w (C_w chip0 (slotreg 0 4) 0x80) (slotreg 0 4) 0).slots 0).env_step = 4 ∧
    (compute_envelope { slot0 with AR := 15, DL := 1 }).env_step = 1 ∧
    (compute_envelope { slot0 with AR := 15, DL := 1 }).env_vol = 0 ∧
    (compute_envelope { slot0 with env_step := 1, DL := 0 }).env_step = 2 := by
  obtain ⟨h1, h2, h3, h4⟩ := envelope_transitions_claim
  have ha := h1 chip0 0 0x80 (by norm_num) (by decide) (by decide) (by decide)
  refine ⟨ha.1, ha.2.2 (by decide), ?_, ?_, ?_, ?_⟩
  · exact (h2 (C_w chip0 (slotreg 0 4) 0x80) 0 0 (by norm_num) (by decide)
      (ha.2.2 (by decide))).1
  · exact (h3 _ rfl (by decide) (by decide)).1
  · exact (h3 _ rfl (by decide) (by decide)).2
  · exact h4 _ rfl (by decide)

lemma ce_core_all (s : Slot) :
    slotCore (compute_envelope s) = slotCore s ∧
    (compute_envelope s).stepptr = s.stepptr ∧
    ((compute_envelope s).active = true → s.active = true) := by
  have hc : s.env_step = 0 ∨ s.env_step = 1 ∨ s.env_step = 2 ∨ s.env_step = 3 ∨
      s.env_step = 4 ∨ s.env_step = 5 ∨ 6 ≤ s.env_step := by omega
  refine ⟨?_, ?_, ce_active_mono s⟩
  · rcases hc with h | h | h | h | h | h | h
    · exact (ce_attack s h).1
    · exact (ce_d1 s h).1
    · exact (ce_d2 s h).1
    · exact (ce_term s (Or.inl h)).2.2.2.2.2.1
    · exact (ce_rel s h).1
    · exact (ce_term s (Or.inr h)).2.2.2.2.2.1
    · rw [ce_high s h]
  · rcases hc with h | h | h | h | h | h | h
    · exact (ce_attack s h).2.2.1
    · exact (ce_d1 s h).2.2.1
    · exact (ce_d2 s h).2.2.1
    · exact (ce_term s (Or.inl h)).2.2.2.2.2.2
    · exact (ce_rel s h).2.2.1
    · exact (ce_term s (Or.inr h)).2.2.2.2.2.2
    · rw [ce_high s h]

lemma slot_dispatch_g59 (g pcmold d : Nat) (s : Slot)
    (hg : g = 5 ∨ g = 6 ∨ g = 7 ∨ g = 8 ∨ g = 9) :
    slotCore (slot_dispatch g pcmold d s) = slotCore s ∧
    (slot_dispatch g pcmold d s).stepptr = s.stepptr ∧
    ((slot_dispatch g pcmold d s).active = true → s.active = true) := by
  rcases hg with rfl | rfl | rfl | rfl | rfl
  · refine ⟨?_, rfl, fun h => h⟩
    norm_num [slot_dispatch, slot_w5, slotCore]
  · have hd : slot_dispatch 6 pcmold d s = slot_w6 pcmold d s := by
      norm_num [slot_dispatch]
    rw [hd]
    simp only [slot_w6]
    split_ifs with h
    · obtain ⟨hcore, hstp, hmono⟩ :=
        ce_core_all { s with AR := d >>> 4, D1R := d &&& 0xf }
      exact ⟨by rw [hcore]; rfl, by rw [hstp], fun ha => hmono ha⟩
    · exact ⟨by simp [slotCore], rfl, fun h => h⟩
  · have hd : slot_dispatch 7 pcmold d s = slot_w7 pcmold d s := by
      norm_num [slot_dispatch]
    rw [hd]
    simp only [slot_w7]
    split_ifs with h
    · obtain ⟨hcore, hstp, hmono⟩ :=
        ce_core_all { s with DL := d >>> 4, D2R := d &&& 0xf }
      exact ⟨by rw [hcore]; rfl, by rw [hstp], fun ha => hmono ha⟩
    · exact ⟨by simp [slotCore], rfl, fun h => h⟩
  · have hd : slot_dispatch 8 pcmold d s = slot_w8 pcmold d s := by
      norm_num [slot_dispatch]
    rw [hd]
    simp only [slot_w8]
    split_ifs with h
    · obtain ⟨hcore, hstp, hmono⟩ :=
        ce_core_all { s with RC := d >>> 4, RR := d &&& 0xf }
      exact ⟨by rw [hcore]; rfl, by rw [hstp], fun ha => hmono ha⟩
    · exact ⟨by simp [slotCore], rfl, fun h => h⟩
  · refine ⟨?_, rfl, fun h => h⟩
    norm_num [slot_dispatch, slot_w9, slotCore]

lemma C_w_base_g59_facts (c : Chip) (n g d : Nat) (hn : n < 24)
    (hg : g = 5 ∨ g = 6 ∨ g = 7 ∨ g = 8 ∨ g = 9) :
    slotCore ((C_w_base c (slotreg n g) d).slots n) = slotCore (c.slots n) ∧
    ((C_w_base c (slotreg n g) d).slots n).stepptr = (c.slots n).stepptr ∧
    (((C_w_base c (slotreg n g) d).slots n).active = true → (c.slots n).active = true) ∧
    (C_w_base c (slotreg n g) d).pcmregs = updFun c.pcmregs (slotreg n g) d ∧
    (C_w_base c (slotreg n g) d).mem = c.mem ∧
    (C_w_base c (slotreg n g) d).wavetblhdr = c.wavetblhdr ∧
    (∀ m, m ≠ n → (C_w_base c (slotreg n g) d).slots m = c.slots m) := by
  have h9 : g ≤ 9 := by
    rcases hg with rfl | rfl | rfl | rfl | rfl <;> norm_num
  rw [C_w_base_slot_eq c n g d hn h9]
  obtain ⟨hcore, hstp, hmono⟩ :=
    slot_dispatch_g59 g (c.pcmregs (slotreg n g)) d (c.slots n) hg
  refine ⟨?_, ?_, ?_, rfl, rfl, rfl, fun m hm => ?_⟩
  · simpa [setSlot] using hcore
  · simpa [setSlot] using hstp
  · intro ha
    exact hmono (by simpa [setSlot] using ha)
  · simp [setSlot, hm]

lemma updFun_eq (f : Nat → Nat) (i v : Nat) : updFun f i v i = v := by
  simp [updFun]

lemma updFun_ne (f : Nat → Nat) (i v j : Nat) (h : j ≠ i) : updFun f i v j = f j := by
  simp [updFun, h]

lemma setSlot_at (c : Chip) (n : Nat) (s : Slot) : (setSlot c n s).slots n = s := by
  simp [setSlot]

lemma setSlot_pcmregs (c : Chip) (n : Nat) (s : Slot) :
    (setSlot c n s).pcmregs = c.pcmregs := rfl

lemma wave_chain_facts (c0 : Chip) (n : Nat) (S1 : Slot) (d5 d6 d7 d8 d9 : Nat)
    (hn : n < 24) :
    slotCore ((C_w_base (C_w_base (C_w_base (C_w_base (C_w_base (setSlot c0 n S1) (slotreg n 5) d5) (slotreg n 6) d6) (slotreg n 7) d7) (slotreg n 8) d8) (slotreg n 9) d9).slots n) = slotCore S1 ∧
    (((C_w_base (C_w_base (C_w_base (C_w_base (C_w_base (setSlot c0 n S1) (slotreg n 5) d5) (slotreg n 6) d6) (slotreg n 7) d7) (slotreg n 8) d8) (slotreg n 9) d9).slots n).active = true → S1.active = true) ∧
    (C_w_base (C_w_base (C_w_base (C_w_base (C_w_base (setSlot c0 n S1) (slotreg n 5) d5) (slotreg n 6) d6) (slotreg n 7) d7) (slotreg n 8) d8) (slotreg n 9) d9).pcmregs (slotreg n 5) = d5 ∧
    (C_w_base (C_w_base (C_w_base (C_w_base (C_w_base (setSlot c0 n S1) (slotreg n 5) d5) (slotreg n 6) d6) (slotreg n 7) d7) (slotreg n 8) d8) (slotreg n 9) d9).pcmregs (slotreg n 6) = d6 ∧
    (C_w_base (C_w_base (C_w_base (C_w_base (C_w_base (setSlot c0 n S1) (slotreg n 5) d5) (slotreg n 6) d6) (slotreg n 7) d7) (slotreg n 8) d8) (slotreg n 9) d9).pcmregs (slotreg n 7) = d7 ∧
    (C_w_base (C_w_base (C_w_base (C_w_base (C_w_base (setSlot c0 n S1) (slotreg n 5) d5) (slotreg n 6) d6) (slotreg n 7) d7) (slotreg n 8) d8) (slotreg n 9) d9).pcmregs (slotreg n 8) = d8 ∧
    (C_w_base (C_w_base (C_w_base (C_w_base (C_w_base (setSlot c0 n S1) (slotreg n 5) d5) (slotreg n 6) d6) (slotreg n 7) d7) (slotreg n 8) d8) (slotreg n 9) d9).pcmregs (slotreg n 9) = d9 := by
  set c1 := setSlot c0 n S1 with hc1
  set c2 := C_w_base c1 (slotreg n 5) d5 with hc2
  set c3 := C_w_base c2 (slotreg n 6) d6 with hc3
  set c4 := C_w_base c3 (slotreg n 7) d7 with hc4
  set c5 := C_w_base c4 (slotreg n 8) d8 with hc5
  set c6 := C_w_base c5 (slotreg n 9) d9 with hc6
  have f5 := C_w_base_g59_facts c1 n 5 d5 hn (by norm_num)
  have f6 := C_w_base_g59_facts c2 n 6 d6 hn (by norm_num)
  have f7 := C_w_base_g59_facts c3 n 7 d7 hn (by norm_num)
  have f8 := C_w_base_g59_facts c4 n 8 d8 hn (by norm_num)
  have f9 := C_w_base_g59_facts c5 n 9 d9 hn (by norm_num)
  rw [← hc2] at f5
  rw [← hc3] at f6
  rw [← hc4] at f7
  rw [← hc5] at f8
  rw [← hc6] at f9
  have hs1 : c1.slots n = S1 := setSlot_at c0 n S1
  have hne96 : slotreg n 9 ≠ slotreg n 6 := by
    simp only [slotreg]
    omega
  have hne97 : slotreg n 9 ≠ slotreg n 7 := by
    simp only [slotreg]
    omega
  have hne98 : slotreg n 9 ≠ slotreg n 8 := by
    simp only [slotreg]
    omega
  have hne95 : slotreg n 9 ≠ slotreg n 5 := by
    simp only [slotreg]
    omega
  have hne85 : slotreg n 8 ≠ slotreg n 5 := by
    simp only [slotreg]
    omega
  have hne86 : slotreg n 8 ≠ slotreg n 6 := by
    simp only [slotreg]
    omega
  have hne87 : slotreg n 8 ≠ slotreg n 7 := by
    simp only [slotreg]
    omega
  have hne75 : slotreg n 7 ≠ slotreg n 5 := by
    simp only [slotreg]
    omega
  have hne76 : slotreg n 7 ≠ slotreg n 6 := by
    simp only [slotreg]
    omega
  have hne65 : slotreg n 6 ≠ slotreg n 5 := by
    simp only [slotreg]
    omega
  have hpc1 : c1.pcmregs = c0.pcmregs := rfl
  refine ⟨?_, ?_, ?_, ?_, ?_, ?_, ?_⟩
  · rw [f9.1, f8.1, f7.1, f6.1, f5.1, hs1]
  · intro ha
    rw [hs1] at f5
    exact f5.2.2.1 (f6.2.2.1 (f7.2.2.1 (f8.2.2.1 (f9.2.2.1 ha))))
  · rw [f9.2.2.2.1, updFun_ne _ _ _ _ hne95.symm, f8.2.2.2.1,
      updFun_ne _ _ _ _ hne85.symm, f7.2.2.2.1, updFun_ne _ _ _ _ hne75.symm,
      f6.2.2.2.1, updFun_ne _ _ _ _ hne65.symm, f5.2.2.2.1, updFun_eq]
  · rw [f9.2.2.2.1, updFun_ne _ _ _ _ hne96.symm, f8.2.2.2.1,
      updFun_ne _ _ _ _ hne86.symm, f7.2.2.2.1, updFun_ne _ _ _ _ hne76.symm,
      f6.2.2.2.1, updFun_eq]
  · rw [f9.2.2.2.1, updFun_ne _ _ _ _ hne97.symm, f8.2.2.2.1,
      updFun_ne _ _ _ _ hne87.symm, f7.2.2.2.1, updFun_eq]
  · rw [f9.2.2.2.1, updFun_ne _ _ _ _ hne98.symm, f8.2.2.2.1, updFun_eq]
  · rw [f9.2.2.2.1, updFun_eq]

/-! ### Preservation of the activity invariant (helper lemmas) -/

lemma setSlot_ne (c : Chip) (n m : Nat) (s : Slot) (h : m ≠ n) :
    (setSlot c n s).slots m = c.slots m := by
  simp [setSlot, h]

lemma SlotInv_of_term (t : Slot) (ha : t.active = false)
    (hstep : t.env_step = 3 ∨ t.env_step = 5) : SlotInv t := by
  unfold SlotInv
  constructor
  · intro hc
    rw [ha] at hc
    exact absurd hc (by decide)
  · rintro ⟨_, h3, h5⟩
    rcases hstep with h | h
    · exact absurd h h3
    · exact absurd h h5

lemma SlotInv_of_act (t : Slot) (ha : t.active = true) (ho : t.octave ≠ 8)
    (h3 : t.env_step ≠ 3) (h5 : t.env_step ≠ 5) : SlotInv t := by
  unfold SlotInv
  exact iff_of_true ha ⟨ho, h3, h5⟩

lemma SlotInv_of_oct8 (t : Slot) (ha : t.active = false) (ho : t.octave = 8) :
    SlotInv t := by
  unfold SlotInv
  constructor
  · intro hc
    rw [ha] at hc
    exact absurd hc (by decide)
  · rintro ⟨h8, _, _⟩
    exact absurd ho h8

lemma ce_keep (s : Slot) (hs : SlotInv s) :
    SlotInv (compute_envelope s) ∧ (compute_envelope s).octave = s.octave := by
  by_cases ht : s.env_step = 3 ∨ s.env_step = 5
  · obtain ⟨hst, hac, _, _, _, hcore, _⟩ := ce_term s ht
    have hoc : (compute_envelope s).octave = s.octave :=
      congrArg (fun t => t.2.2.2.2.2.2) hcore
    exact ⟨SlotInv_of_term _ hac
      (ht.imp (fun h => hst.trans h) (fun h => hst.trans h)), hoc⟩
  · push_neg at ht
    obtain ⟨hac, h3, h5, hcore⟩ := ce_active_eq s ht.1 ht.2
    have hoc : (compute_envelope s).octave = s.octave :=
      congrArg (fun t => t.2.2.2.2.2.2) hcore
    cases hsa : s.active with
    | true =>
      exact ⟨SlotInv_of_act _ (hac.trans hsa)
        (by rw [hoc]; exact (hs.mp hsa).1) h3 h5, hoc⟩
    | false =>
      have h8 : s.octave = 8 := by
        by_contra h8
        exact absurd (hs.mpr ⟨h8, ht.1, ht.2⟩) (by simp [hsa])
      exact ⟨SlotInv_of_oct8 _ (hac.trans hsa) (hoc.trans h8), hoc⟩

lemma ce_keep_act (s : Slot) (ha : s.active = true) (ho : s.octave ≠ 8) :
    SlotInv (compute_envelope s) ∧ (compute_envelope s).octave = s.octave := by
  by_cases ht : s.env_step = 3 ∨ s.env_step = 5
  · obtain ⟨hst, hac, _, _, _, hcore, _⟩ := ce_term s ht
    have hoc : (compute_envelope s).octave = s.octave :=
      congrArg (fun t => t.2.2.2.2.2.2) hcore
    exact ⟨SlotInv_of_term _ hac
      (ht.imp (fun h => hst.trans h) (fun h => hst.trans h)), hoc⟩
  · push_neg at ht
    obtain ⟨hac, h3, h5, hcore⟩ := ce_active_eq s ht.1 ht.2
    have hoc : (compute_envelope s).octave = s.octave :=
      congrArg (fun t => t.2.2.2.2.2.2) hcore
    exact ⟨SlotInv_of_act _ (hac.trans ha) (by rw [hoc]; exact ho) h3 h5, hoc⟩

lemma ce_keep2 (s : Slot) (hda : s.active = true → s.octave ≠ 8)
    (hdi : s.active = false → (s.env_step = 3 ∨ s.env_step = 5)) :
    (SlotInv (compute_envelope s) ∧ TickInv (compute_envelope s)) ∧
    (compute_envelope s).octave = s.octave := by
  by_cases ht : s.env_step = 3 ∨ s.env_step = 5
  · obtain ⟨hst, hac, hv, hvs, hvl, hcore, _⟩ := ce_term s ht
    have hoc : (compute_envelope s).octave = s.octave :=
      congrArg (fun t => t.2.2.2.2.2.2) hcore
    have hstep : (compute_envelope s).env_step = 3 ∨ (compute_envelope s).env_step = 5 :=
      ht.imp (fun h => hst.trans h) (fun h => hst.trans h)
    exact ⟨⟨SlotInv_of_term _ hac hstep, Or.inr ⟨hac, hstep, hv, hvs, hvl⟩⟩, hoc⟩
  · push_neg at ht
    obtain ⟨hac, h3, h5, hcore⟩ := ce_active_eq s ht.1 ht.2
    have hoc : (compute_envelope s).octave = s.octave :=
      congrArg (fun t => t.2.2.2.2.2.2) hcore
    cases hsa : s.active with
    | false =>
      rcases hdi hsa with h | h
      · exact absurd h ht.1
      · exact absurd h ht.2
    | true =>
      have ha' : (compute_envelope s).active = true := hac.trans hsa
      exact ⟨⟨SlotInv_of_act _ ha' (by rw [hoc]; exact hda hsa) h3 h5, Or.inl ha'⟩, hoc⟩

lemma retrig_keep (s : Slot) (hs : SlotInv s) :
    SlotInv (retrigger_sample s) ∧ (retrigger_sample s).octave = s.octave := by
  obtain ⟨hcore, hstp, hoa, h8a, hsteps, _, _⟩ := retrigger_spec s
  have hoc : (retrigger_sample s).octave = s.octave :=
    congrArg (fun t => t.2.2.2.2.2.2) hcore
  by_cases h8 : s.octave = 8
  · have hact : (retrigger_sample s).active = s.active := h8a h8
    have hsf : s.active = false := by
      cases hab : s.active
      · rfl
      · exact absurd (hs.mp hab).1 (not_not_intro h8)
    exact ⟨SlotInv_of_oct8 _ (hact.trans hsf) (hoc.trans h8), hoc⟩
  · have hact : (retrigger_sample s).active = true := hoa h8
    have h3 : (retrigger_sample s).env_step ≠ 3 := by
      rcases hsteps with h | h | h <;> omega
    have h5 : (retrigger_sample s).env_step ≠ 5 := by
      rcases hsteps with h | h | h <;> omega
    exact ⟨SlotInv_of_act _ hact (by rw [hoc]; exact h8) h3 h5, hoc⟩

lemma slot_w1_keep (pcmold d : Nat) (s : Slot) (hs : SlotInv s) :
    SlotInv (slot_w1 pcmold d s) ∧ (slot_w1 pcmold d s).octave = s.octave := by
  simp only [slot_w1]
  split_ifs with hc
  · have h := ce_keep (compute_freq_step { s with
      wave := (s.wave &&& 0xff) ||| ((d &&& 1) <<< 8),
      F_NUMBER := (s.F_NUMBER &&& 0x380) ||| (d >>> 1) }) hs
    exact ⟨h.1, h.2⟩
  · exact ⟨hs, rfl⟩

lemma slot_w2_keep (pcmold d : Nat) (s : Slot) (hs : SlotInv s)
    (hl : s.octave = (pcmold &&& 0xf0) >>> 4) :
    SlotInv (slot_w2 pcmold d s) ∧
    (slot_w2 pcmold d s).octave = (d &&& 0xf0) >>> 4 := by
  simp only [slot_w2]
  split_ifs with hne hact
  · have hd8 : ((d &&& 0xf0) >>> 4) ≠ 8 := of_decide_eq_true hact
    have h := ce_keep_act (compute_freq_step ({ ({ ({ s with
        F_NUMBER := (s.F_NUMBER &&& 0x07f) ||| ((d &&& 0x07) <<< 7),
        preverb := (d &&& 0x8) ≠ 0,
        octave := (d &&& 0xf0) >>> 4 } : Slot) with
        active := (((d &&& 0xf0) >>> 4) ≠ 8 : Bool) } : Slot) with
        env_preverb := false } : Slot)) hact hd8
    exact ⟨h.1, h.2⟩
  · have hd8 : ((d &&& 0xf0) >>> 4) = 8 := by
      by_contra hc
      exact hact (decide_eq_true hc)
    have ha2 : (decide (((d &&& 0xf0) >>> 4) ≠ 8)) = false :=
      decide_eq_false (not_not_intro hd8)
    exact ⟨SlotInv_of_oct8 ({ ({ s with
        F_NUMBER := (s.F_NUMBER &&& 0x07f) ||| ((d &&& 0x07) <<< 7),
        preverb := (d &&& 0x8) ≠ 0,
        octave := (d &&& 0xf0) >>> 4 } : Slot) with
        active := (((d &&& 0xf0) >>> 4) ≠ 8 : Bool) } : Slot) ha2 hd8, rfl⟩
  · have hdp : d = pcmold := by
      push_neg at hne
      exact hne
    refine ⟨?_, rfl⟩
    show s.active = true ↔
      (((d &&& 0xf0) >>> 4) ≠ 8 ∧ s.env_step ≠ 3 ∧ s.env_step ≠ 5)
    rw [hdp, ← hl]
    exact hs

lemma slot_w3_keep (d : Nat) (s : Slot) (hs : SlotInv s) :
    SlotInv (slot_w3 d s) ∧ (slot_w3 d s).octave = s.octave :=
  ⟨hs, rfl⟩

lemma slot_w4_keep (pcmold d : Nat) (s : Slot) (hs : SlotInv s) :
    SlotInv (slot_w4 pcmold d s) ∧ (slot_w4 pcmold d s).octave = s.octave := by
  simp only [slot_w4]
  split_ifs with hbit hkon hdamp hact
  · have h := ce_keep ({ s with CH := (d &&& 0x10) ≠ 0, pan := d &&& 0xf, DAMP := (d &&& 0x40) ≠ 0 } : Slot) hs
    exact ⟨h.1, h.2⟩
  · exact ⟨hs, rfl⟩
  · have h := retrig_keep ({ s with CH := (d &&& 0x10) ≠ 0, pan := d &&& 0xf, DAMP := (d &&& 0x40) ≠ 0 } : Slot) hs
    exact ⟨h.1, h.2⟩
  · have h := ce_keep_act ({ ({ s with CH := (d &&& 0x10) ≠ 0, pan := d &&& 0xf, DAMP := (d &&& 0x40) ≠ 0 } : Slot) with env_step := 4 } : Slot) hact (hs.mp hact).1
    exact ⟨h.1, h.2⟩
  · exact ⟨hs, rfl⟩

lemma slot_w5_keep (d : Nat) (s : Slot) (hs : SlotInv s) :
    SlotInv (slot_w5 d s) ∧ (slot_w5 d s).octave = s.octave :=
  ⟨hs, rfl⟩

lemma slot_w6_keep (pcmold d : Nat) (s : Slot) (hs : SlotInv s) :
    SlotInv (slot_w6 pcmold d s) ∧ (slot_w6 pcmold d s).octave = s.octave := by
  simp only [slot_w6]
  split_ifs with hc
  · have h := ce_keep { s with AR := d >>> 4, D1R := d &&& 0xf } hs
    exact ⟨h.1, h.2⟩
  · exact ⟨hs, rfl⟩

lemma slot_w7_keep (pcmold d : Nat) (s : Slot) (hs : SlotInv s) :
    SlotInv (slot_w7 pcmold d s) ∧ (slot_w7 pcmold d s).octave = s.octave := by
  simp only [slot_w7]
  split_ifs with hc
  · have h := ce_keep { s with DL := d >>> 4, D2R := d &&& 0xf } hs
    exact ⟨h.1, h.2⟩
  · exact ⟨hs, rfl⟩

lemma slot_w8_keep (pcmold d : Nat) (s : Slot) (hs : SlotInv s) :
    SlotInv (slot_w8 pcmold d s) ∧ (slot_w8 pcmold d s).octave = s.octave := by
  simp only [slot_w8]
  split_ifs with hc
  · have h := ce_keep { s with RC := d >>> 4, RR := d &&& 0xf } hs
    exact ⟨h.1, h.2⟩
  · exact ⟨hs, rfl⟩

lemma slot_w9_keep (d : Nat) (s : Slot) (hs : SlotInv s) :
    SlotInv (slot_w9 d s) ∧ (slot_w9 d s).octave = s.octave :=
  ⟨hs, rfl⟩

lemma slot_dispatch_keep (g pcmold d : Nat) (s : Slot) (hs : SlotInv s)
    (hl : g = 2 → s.octave = (pcmold &&& 0xf0) >>> 4) :
    SlotInv (slot_dispatch g pcmold d s) ∧
    (g ≠ 2 → (slot_dispatch g pcmold d s).octave = s.octave) ∧
    (g = 2 → (slot_dispatch g pcmold d s).octave = (d &&& 0xf0) >>> 4) := by
  unfold slot_dispatch
  split_ifs with h1 h2 h3 h4 h5 h6 h7 h8 h9
  · obtain ⟨hw, ho⟩ := slot_w1_keep pcmold d s hs
    exact ⟨hw, fun _ => ho, fun hg2 => absurd (h1.symm.trans hg2) (by decide)⟩
  · obtain ⟨hw, ho⟩ := slot_w2_keep pcmold d s hs (hl h2)
    exact ⟨hw, fun hne2 => absurd h2 hne2, fun _ => ho⟩
  · obtain ⟨hw, ho⟩ := slot_w3_keep d s hs
    exact ⟨hw, fun _ => ho, fun hg2 => absurd (h3.symm.trans hg2) (by decide)⟩
  · obtain ⟨hw, ho⟩ := slot_w4_keep pcmold d s hs
    exact ⟨hw, fun _ => ho, fun hg2 => absurd (h4.symm.trans hg2) (by decide)⟩
  · obtain ⟨hw, ho⟩ := slot_w5_keep d s hs
    exact ⟨hw, fun _ => ho, fun hg2 => absurd (h5.symm.trans hg2) (by decide)⟩
  · obtain ⟨hw, ho⟩ := slot_w6_keep pcmold d s hs
    exact ⟨hw, fun _ => ho, fun hg2 => absurd (h6.symm.trans hg2) (by decide)⟩
  · obtain ⟨hw, ho⟩ := slot_w7_keep pcmold d s hs
    exact ⟨hw, fun _ => ho, fun hg2 => absurd (h7.symm.trans hg2) (by decide)⟩
  · obtain ⟨hw, ho⟩ := slot_w8_keep pcmold d s hs
    exact ⟨hw, fun _ => ho, fun hg2 => absurd (h8.symm.trans hg2) (by decide)⟩
  · obtain ⟨hw, ho⟩ := slot_w9_keep d s hs
    exact ⟨hw, fun _ => ho, fun hg2 => absurd (h9.symm.trans hg2) (by decide)⟩
  · exact ⟨hs, fun _ => rfl, fun hg2 => absurd hg2 h2⟩

lemma ChipInv_ext (a b : Chip)
    (hfields : ∀ n, n < 24 → b.slots n = a.slots n ∧ b.pcmregs (56 + n) = a.pcmregs (56 + n))
    (h : ChipInv a) : ChipInv b := by
  intro n hn
  obtain ⟨h1, h2⟩ := hfields n hn
  rw [h1, h2]
  exact h n hn

lemma ChipInv_fm (c : Chip) (f : FMState) (h : ChipInv c) :
    ChipInv { c with fm := f } :=
  fun n hn => h n hn

lemma ChipInv_pcm_out (c : Chip) (r v : Nat) (hr : ∀ m, m < 24 → 56 + m ≠ r)
    (h : ChipInv c) : ChipInv { c with pcmregs := updFun c.pcmregs r v } := by
  intro m hm
  refine ⟨(h m hm).1, ?_⟩
  show (c.slots m).octave = ((updFun c.pcmregs r v (56 + m)) &&& 0xf0) >>> 4
  rw [updFun_ne _ _ _ _ (hr m hm)]
  exact (h m hm).2

lemma ChipInv_setSlot (c : Chip) (k : Nat) (t : Slot) (hk : k < 24)
    (hs : SlotInv t) (ho : t.octave = ((c.pcmregs (56 + k)) &&& 0xf0) >>> 4)
    (h : ChipInv c) : ChipInv (setSlot c k t) := by
  intro m hm
  by_cases hmk : m = k
  · subst hmk
    rw [setSlot_at, setSlot_pcmregs]
    exact ⟨hs, ho⟩
  · rw [setSlot_ne c k m t hmk, setSlot_pcmregs]
    exact h m hm

lemma C_w_base_parts (c : Chip) (n g d : Nat) (hn : n < 24) (hg9 : g ≤ 9) :
    (C_w_base c (slotreg n g) d).slots n =
        slot_dispatch g (c.pcmregs (slotreg n g)) d (c.slots n) ∧
    (∀ m, m ≠ n → (C_w_base c (slotreg n g) d).slots m = c.slots m) ∧
    (C_w_base c (slotreg n g) d).pcmregs = updFun c.pcmregs (slotreg n g) d := by
  rw [C_w_base_slot_eq c n g d hn hg9]
  refine ⟨by simp [setSlot], fun m hm => by simp [setSlot, hm], rfl⟩

lemma C_w_base_keep_slot (c : Chip) (n g d : Nat) (hn : n < 24) (hg9 : g ≤ 9)
    (h : ChipInv c) : ChipInv (C_w_base c (slotreg n g) d) := by
  obtain ⟨hsl, hso, hpc⟩ := C_w_base_parts c n g d hn hg9
  intro m hm
  by_cases hmn : m = n
  · subst hmn
    have hlink : g = 2 → (c.slots m).octave = ((c.pcmregs (slotreg m g)) &&& 0xf0) >>> 4 := by
      intro hg2
      have he : slotreg m g = 56 + m := by
        simp only [slotreg, hg2]
        omega
      rw [he]
      exact (h m hm).2
    have hdisp := slot_dispatch_keep g (c.pcmregs (slotreg m g)) d (c.slots m) (h m hm).1 hlink
    refine ⟨?_, ?_⟩
    · rw [hsl]
      exact hdisp.1
    · rw [hsl, hpc]
      by_cases hg2 : g = 2
      · have he : slotreg m g = 56 + m := by
          simp only [slotreg, hg2]
          omega
        rw [← he, updFun_eq]
        exact hdisp.2.2 hg2
      · have hne : (56 + m) ≠ slotreg m g := by
          simp only [slotreg]
          omega
        rw [updFun_ne _ _ _ _ hne, hdisp.2.1 hg2]
        exact (h m hm).2
  · have hne : (56 + m) ≠ slotreg n g := by
      simp only [slotreg]
      omega
    refine ⟨?_, ?_⟩
    · rw [hso m hmn]
      exact (h m hm).1
    · rw [hso m hmn, hpc, updFun_ne _ _ _ _ hne]
      exact (h m hm).2

lemma C_w_base_keep (c : Chip) (reg d : Nat) (h : ChipInv c) :
    ChipInv (C_w_base c reg d) := by
  by_cases hrange : 8 ≤ reg ∧ reg ≤ 0xf7
  · have hreg : reg = slotreg ((reg - 8) % 24) ((reg - 8) / 24) := by
      simp only [slotreg]
      omega
    have hn24 : (reg - 8) % 24 < 24 := Nat.mod_lt _ (by norm_num)
    have hg9 : (reg - 8) / 24 ≤ 9 := by omega
    rw [hreg]
    exact C_w_base_keep_slot c _ _ d hn24 hg9 h
  · have hglob : (C_w_base c reg d).slots = c.slots ∧
        ∀ m, m < 24 → (C_w_base c reg d).pcmregs (56 + m) = c.pcmregs (56 + m) := by
      simp only [C_w_base]
      rw [if_neg hrange]
      have hne : ∀ m, m < 24 → 56 + m ≠ reg := by
        intro m hm
        omega
      constructor
      · split_ifs <;> rfl
      · intro m hm
        split_ifs <;> exact updFun_ne _ _ _ _ (hne m hm)
    exact ChipInv_ext c _ (fun m hm => ⟨congrFun hglob.1 m, hglob.2 m hm⟩) h

set_option maxHeartbeats 1600000 in
lemma C_w_wave_keep (c : Chip) (snum data : Nat) (hn : snum < 24)
    (h : ChipInv c) : ChipInv (C_w_wave c snum data) := by
  simp only [C_w_wave]
  set W := ((c.slots snum).wave &&& 0x100) ||| data with hW
  set OFF := wave_header_offset W c.wavetblhdr with hOFF
  set S1 := { c.slots snum with wave := W, bits := (read_byte c (OFF + 0) &&& 0xc0) >>> 6, startaddr := (read_byte c (OFF + 2)) ||| ((read_byte c (OFF + 1)) <<< 8) ||| ((read_byte c (OFF + 0) &&& 0x3f) <<< 16), loopaddr := ((read_byte c (OFF + 4)) <<< 16) ||| ((read_byte c (OFF + 3)) <<< 24), endaddr := ((((read_byte c (OFF + 6)) <<< 16 ||| (read_byte c (OFF + 5)) <<< 24) + (2 ^ 32 - 0x10000)) % 2 ^ 32) ^^^ 0xffff0000 } with hS1
  set CH6 := C_w_base (C_w_base (C_w_base (C_w_base (C_w_base (setSlot c snum S1) (slotreg snum 5) (read_byte c (OFF + 7))) (slotreg snum 6) (read_byte c (OFF + 8))) (slotreg snum 7) (read_byte c (OFF + 9))) (slotreg snum 8) (read_byte c (OFF + 10))) (slotreg snum 9) (read_byte c (OFF + 11)) with hCH6
  have hC1 : ChipInv (setSlot c snum S1) := by
    intro m hm
    by_cases hmn : m = snum
    · subst hmn
      rw [setSlot_at, setSlot_pcmregs]
      exact ⟨(h m hm).1, (h m hm).2⟩
    · rw [setSlot_ne c snum m S1 hmn, setSlot_pcmregs]
      exact h m hm
  have hCH : ChipInv CH6 := by
    rw [hCH6]
    exact C_w_base_keep _ _ _ (C_w_base_keep _ _ _ (C_w_base_keep _ _ _
      (C_w_base_keep _ _ _ (C_w_base_keep _ _ _ hC1))))
  have hfar : ∀ m, m < 24 → 56 + m ≠ 8 + snum := by
    intro m hm
    omega
  by_cases hK : (CH6.slots snum).KEY_ON = true
  · rw [if_pos hK]
    have hretr := retrig_keep (CH6.slots snum) (hCH snum hn).1
    exact ChipInv_pcm_out
      (setSlot { CH6 with fm := { CH6.fm with ld := true } } snum
        (retrigger_sample (CH6.slots snum)))
      (8 + snum) data hfar
      (ChipInv_setSlot { CH6 with fm := { CH6.fm with ld := true } } snum
        (retrigger_sample (CH6.slots snum)) hn hretr.1
        (hretr.2.trans (hCH snum hn).2)
        (ChipInv_fm CH6 { CH6.fm with ld := true } hCH))
  · rw [if_neg hK]
    by_cases hA : (CH6.slots snum).active = true
    · rw [if_pos hA]
      have hterm := ce_term ({ CH6.slots snum with env_step := 5 } : Slot) (Or.inr rfl)
      have hsE : SlotInv (compute_envelope ({ CH6.slots snum with env_step := 5 } : Slot)) :=
        SlotInv_of_term _ hterm.2.1 (Or.inr hterm.1)
      have hoE : (compute_envelope ({ CH6.slots snum with env_step := 5 } : Slot)).octave =
          (CH6.slots snum).octave :=
        congrArg (fun t => t.2.2.2.2.2.2) hterm.2.2.2.2.2.1
      exact ChipInv_pcm_out
        (setSlot { CH6 with fm := { CH6.fm with ld := true } } snum
          (compute_envelope ({ CH6.slots snum with env_step := 5 } : Slot)))
        (8 + snum) data hfar
        (ChipInv_setSlot { CH6 with fm := { CH6.fm with ld := true } } snum
          (compute_envelope ({ CH6.slots snum with env_step := 5 } : Slot)) hn hsE
          (hoE.trans (hCH snum hn).2)
          (ChipInv_fm CH6 { CH6.fm with ld := true } hCH))
    · rw [if_neg hA]
      exact ChipInv_pcm_out { CH6 with fm := { CH6.fm with ld := true } }
        (8 + snum) data hfar (ChipInv_fm CH6 { CH6.fm with ld := true } hCH)

lemma C_w_keep (c : Chip) (reg data : Nat) (h : ChipInv c) :
    ChipInv (C_w c reg data) := by
  unfold C_w
  split_ifs with hr hg
  · exact C_w_wave_keep c _ data (Nat.mod_lt _ (by norm_num)) h
  · exact C_w_base_keep c reg data h
  · exact C_w_base_keep c reg data h

lemma ymf_write_keep (fw : FMState → Nat → Nat → FMState) (c : Chip)
    (offset data : Nat) (h : ChipInv c) :
    ChipInv (ymf_write fw c offset data) := by
  have h8 : offset % 8 < 8 := Nat.mod_lt _ (by norm_num)
  unfold ymf_write
  rcases hv : offset % 8 with _ | _ | _ | _ | _ | _ | _ | _ | k
  · exact fun m hm => h m hm
  · exact fun m hm => h m hm
  · exact fun m hm => h m hm
  · exact fun m hm => h m hm
  · exact fun m hm => h m hm
  · show ChipInv (if c.fm.new2 = false then c
      else C_w (timer_busy_start c true) c.port_C data)
    split_ifs with hnew
    · exact h
    · exact C_w_keep (timer_busy_start c true) c.port_C data (fun m hm => h m hm)
  · exact h
  · exact h
  · rw [hv] at h8
    omega

lemma loop_wrap_env (s : Slot) :
    (loop_wrap s).active = s.active ∧ (loop_wrap s).octave = s.octave ∧
    (loop_wrap s).env_step = s.env_step ∧ (loop_wrap s).env_vol = s.env_vol ∧
    (loop_wrap s).env_vol_step = s.env_vol_step ∧
    (loop_wrap s).env_vol_lim = s.env_vol_lim := by
  unfold loop_wrap
  split_ifs <;> simp

lemma inv_transfer (s t : Slot) (ha : t.active = s.active) (ho : t.octave = s.octave)
    (he : t.env_step = s.env_step) (hv : t.env_vol = s.env_vol)
    (hvs : t.env_vol_step = s.env_vol_step) (hvl : t.env_vol_lim = s.env_vol_lim)
    (h1 : SlotInv s) (h2 : TickInv s) : SlotInv t ∧ TickInv t := by
  unfold SlotInv TickInv at *
  rw [ha, ho, he, hv, hvs, hvl]
  exact ⟨h1, h2⟩

lemma env_advance_keep (s : Slot) (h1 : SlotInv s) (h2 : TickInv s) :
    (SlotInv (env_advance s) ∧ TickInv (env_advance s)) ∧
    (env_advance s).octave = s.octave := by
  simp only [env_advance]
  split_ifs with hc1 hc2
  · cases hsa : s.active with
    | false =>
      exfalso
      rcases h2 with h2 | ⟨_, _, hvol, hvs, hvl⟩
      · rw [hsa] at h2
        exact absurd h2 (by decide)
      · have hc1x : ((s.env_vol + s.env_vol_step) % 2 ^ 32 +
            (2 ^ 32 - s.env_vol_lim % 2 ^ 32)) % 2 ^ 32 < 2 ^ 31 := hc1
        rw [hvol, hvs, hvl] at hc1x
        omega
    | true =>
      have h := ce_keep2 ({ s with active := true, env_vol := (s.env_vol + s.env_vol_step) % 2 ^ 32, env_step := s.env_step + 1 } : Slot) (fun _ => (h1.mp hsa).1) (fun hf => absurd hf (by simp))
      exact ⟨h.1, h.2⟩
  · cases hsa : s.active with
    | true =>
      have h := ce_keep2 ({ s with active := true, env_vol := (s.env_vol + s.env_vol_step) % 2 ^ 32 } : Slot) (fun _ => (h1.mp hsa).1) (fun hf => absurd hf (by simp))
      exact ⟨h.1, h.2⟩
    | false =>
      rcases h2 with h2 | ⟨_, hst, hvol, hvs, hvl⟩
      · rw [hsa] at h2
        exact absurd h2 (by decide)
      · have h := ce_keep2 ({ s with active := false, env_vol := (s.env_vol + s.env_vol_step) % 2 ^ 32 } : Slot) (fun hf => absurd hf (by simp)) (fun _ => hst)
        exact ⟨h.1, h.2⟩
  · refine ⟨⟨h1, ?_⟩, rfl⟩
    rcases h2 with h2 | ⟨hia, hst, hvol, hvs, hvl⟩
    · exact Or.inl h2
    · refine Or.inr ⟨hia, hst, ?_, hvs, hvl⟩
      show (s.env_vol + s.env_vol_step) % 2 ^ 32 = 2 ^ 31
      rw [hvol, hvs]
      omega

lemma slot_tick_keep (vol : Nat → Int) (mem : Nat → Nat) (s : Slot)
    (h1 : SlotInv s) (h2 : TickInv s) :
    (SlotInv (slot_tick vol mem s).2 ∧ TickInv (slot_tick vol mem s).2) ∧
    (slot_tick vol mem s).2.octave = s.octave := by
  have hst : (slot_tick vol mem s).2 = env_advance { loop_wrap s with stepptr := ((loop_wrap s).stepptr + (loop_wrap s).step) % 2 ^ 32 } := rfl
  obtain ⟨ha, ho, he, hv, hvs, hvl⟩ := loop_wrap_env s
  have htr := inv_transfer s ({ loop_wrap s with stepptr := ((loop_wrap s).stepptr + (loop_wrap s).step) % 2 ^ 32 } : Slot) ha ho he hv hvs hvl h1 h2
  have hea := env_advance_keep ({ loop_wrap s with stepptr := ((loop_wrap s).stepptr + (loop_wrap s).step) % 2 ^ 32 } : Slot) htr.1 htr.2
  rw [hst]
  exact ⟨hea.1, hea.2.trans ho⟩

lemma slot_run_keep (vol : Nat → Int) (mem : Nat → Nat) :
    ∀ (n : Nat) (s : Slot), SlotInv s → TickInv s →
      (SlotInv (slot_run vol mem n s).2 ∧ TickInv (slot_run vol mem n s).2) ∧
      (slot_run vol mem n s).2.octave = s.octave
  | 0, s, h1, h2 => ⟨⟨h1, h2⟩, rfl⟩
  | n + 1, s, h1, h2 => by
    have hr : (slot_run vol mem (n + 1) s).2 =
        (slot_run vol mem n (slot_tick vol mem s).2).2 := rfl
    obtain ⟨⟨t1, t2⟩, toct⟩ := slot_tick_keep vol mem s h1 h2
    obtain ⟨hrec, hoct⟩ := slot_run_keep vol mem n (slot_tick vol mem s).2 t1 t2
    rw [hr]
    exact ⟨hrec, hoct.trans toct⟩

lemma slot_mix_keep (vol : Nat → Int) (mem : Nat → Nat) (n : Nat) (s : Slot)
    (h1 : SlotInv s) :
    SlotInv (slot_mix vol mem n s).2 ∧ (slot_mix vol mem n s).2.octave = s.octave := by
  unfold slot_mix
  split_ifs with ha
  · obtain ⟨⟨u1, _⟩, uo⟩ := slot_run_keep vol mem n s h1 (Or.inl ha)
    exact ⟨u1, uo⟩
  · exact ⟨h1, rfl⟩

lemma pcm_update_keep (vol : Nat → Int) (n : Nat) (c : Chip) (h : ChipInv c) :
    ChipInv (pcm_update_slots vol n c) := by
  intro m hm
  have hsl : (pcm_update_slots vol n c).slots m = (slot_mix vol c.mem n (c.slots m)).2 := by
    simp [pcm_update_slots, hm]
  have hpc : (pcm_update_slots vol n c).pcmregs = c.pcmregs := rfl
  obtain ⟨m1, mo⟩ := slot_mix_keep vol c.mem n (c.slots m) (h m hm).1
  rw [hsl, hpc]
  exact ⟨m1, mo.trans (h m hm).2⟩

set_option maxHeartbeats 3200000 in
/-- C2 (amended): writing the wave-table-index register of slot `snum`
fetches the 12-byte header at `wave*12` (or at
`wavetblhdr*0x80000 + (wave-384)*12` when `wave ≥ 384` and the bank flag
is nonzero), populates the slot's bit depth and start/loop/end
addresses, re-writes the FIVE dependent registers (groups 5–9) of the
slot from header bytes `p[7..11]`, and then: if key-on is set the voice
is retriggered (sample position reset, voice reactivated unless the
octave is the mute value 8), otherwise the voice ends up inactive
(an already-active voice is deactivated). -/
theorem wave_header_claim (c : Chip) (snum data wv off : Nat) (p : Nat → Nat)
    (hn : snum < 24)
    (hwv : wv = ((c.slots snum).wave &&& 0x100) ||| data)
    (hoff : off = wave_header_offset wv c.wavetblhdr)
    (hp : p = fun i => read_byte c (off + i)) :
    (wv < 384 ∨ c.wavetblhdr = 0 → off = wv * 12) ∧
    (384 ≤ wv → c.wavetblhdr ≠ 0 →
      off = c.wavetblhdr * 0x80000 + (wv - 384) * 12) ∧
    ((C_w c (slotreg snum 0) data).slots snum).wave = wv ∧
    ((C_w c (slotreg snum 0) data).slots snum).bits = (p 0 &&& 0xc0) >>> 6 ∧
    ((C_w c (slotreg snum 0) data).slots snum).startaddr =
      (p 2) ||| ((p 1) <<< 8) ||| ((p 0 &&& 0x3f) <<< 16) ∧
    ((C_w c (slotreg snum 0) data).slots snum).loopaddr =
      ((p 4) <<< 16) ||| ((p 3) <<< 24) ∧
    ((C_w c (slotreg snum 0) data).slots snum).endaddr =
      (((((p 6) <<< 16) ||| ((p 5) <<< 24)) + (2 ^ 32 - 0x10000)) % 2 ^ 32) ^^^ 0xffff0000 ∧
    (C_w c (slotreg snum 0) data).pcmregs (slotreg snum 5) = p 7 ∧
    (C_w c (slotreg snum 0) data).pcmregs (slotreg snum 6) = p 8 ∧
    (C_w c (slotreg snum 0) data).pcmregs (slotreg snum 7) = p 9 ∧
    (C_w c (slotreg snum 0) data).pcmregs (slotreg snum 8) = p 10 ∧
    (C_w c (slotreg snum 0) data).pcmregs (slotreg snum 9) = p 11 ∧
    ((c.slots snum).KEY_ON = true →
      ((C_w c (slotreg snum 0) data).slots snum).stepptr = 0 ∧
      ((C_w c (slotreg snum 0) data).slots snum).env_preverb = false ∧
      ((c.slots snum).octave ≠ 8 →
        ((C_w c (slotreg snum 0) data).slots snum).active = true)) ∧
    ((c.slots snum).KEY_ON = false →
      ((C_w c (slotreg snum 0) data).slots snum).active = false) := by
  subst hwv hoff hp
  refine ⟨fun h => by rw [wave_header_offset, if_pos h], fun h1 h2 => by rw [wave_header_offset, if_neg (by push_neg; exact ⟨by omega, h2⟩)], ?_⟩
  rw [C_w_wave_red c snum data hn]
  simp only [C_w_wave]
  set W := ((c.slots snum).wave &&& 0x100) ||| data with hW
  set OFF := wave_header_offset W c.wavetblhdr with hOFF
  set S1 := { c.slots snum with wave := W, bits := (read_byte c (OFF + 0) &&& 0xc0) >>> 6, startaddr := (read_byte c (OFF + 2)) ||| ((read_byte c (OFF + 1)) <<< 8) ||| ((read_byte c (OFF + 0) &&& 0x3f) <<< 16), loopaddr := ((read_byte c (OFF + 4)) <<< 16) ||| ((read_byte c (OFF + 3)) <<< 24), endaddr := ((((read_byte c (OFF + 6)) <<< 16 ||| (read_byte c (OFF + 5)) <<< 24) + (2 ^ 32 - 0x10000)) % 2 ^ 32) ^^^ 0xffff0000 } with hS1
  set CH6 := C_w_base (C_w_base (C_w_base (C_w_base (C_w_base (setSlot c snum S1) (slotreg snum 5) (read_byte c (OFF + 7))) (slotreg snum 6) (read_byte c (OFF + 8))) (slotreg snum 7) (read_byte c (OFF + 9))) (slotreg snum 8) (read_byte c (OFF + 10))) (slotreg snum 9) (read_byte c (OFF + 11)) with hCH6
  have hch := wave_chain_facts c snum S1 (read_byte c (OFF + 7)) (read_byte c (OFF + 8)) (read_byte c (OFF + 9)) (read_byte c (OFF + 10)) (read_byte c (OFF + 11)) hn
  rw [← hCH6] at hch
  have hcw : (CH6.slots snum).wave = W := congrArg (fun t => t.1) hch.1
  have hcb : (CH6.slots snum).bits = (read_byte c (OFF + 0) &&& 0xc0) >>> 6 :=
    congrArg (fun t => t.2.1) hch.1
  have hcs : (CH6.slots snum).startaddr =
      (read_byte c (OFF + 2)) ||| ((read_byte c (OFF + 1)) <<< 8) |||
        ((read_byte c (OFF + 0) &&& 0x3f) <<< 16) :=
    congrArg (fun t => t.2.2.1) hch.1
  have hcl : (CH6.slots snum).loopaddr =
      ((read_byte c (OFF + 4)) <<< 16) ||| ((read_byte c (OFF + 3)) <<< 24) :=
    congrArg (fun t => t.2.2.2.1) hch.1
  have hce : (CH6.slots snum).endaddr =
      ((((read_byte c (OFF + 6)) <<< 16 ||| (read_byte c (OFF + 5)) <<< 24) +
        (2 ^ 32 - 0x10000)) % 2 ^ 32) ^^^ 0xffff0000 :=
    congrArg (fun t => t.2.2.2.2.1) hch.1
  have hcK : (CH6.slots snum).KEY_ON = (c.slots snum).KEY_ON :=
    congrArg (fun t => t.2.2.2.2.2.1) hch.1
  have hcO : (CH6.slots snum).octave = (c.slots snum).octave :=
    congrArg (fun t => t.2.2.2.2.2.2) hch.1
  have hj5 : slotreg snum 5 ≠ 8 + snum := by simp only [slotreg]; omega
  have hj6 : slotreg snum 6 ≠ 8 + snum := by simp only [slotreg]; omega
  have hj7 : slotreg snum 7 ≠ 8 + snum := by simp only [slotreg]; omega
  have hj8 : slotreg snum 8 ≠ 8 + snum := by simp only [slotreg]; omega
  have hj9 : slotreg snum 9 ≠ 8 + snum := by simp only [slotreg]; omega
  cases hK : (c.slots snum).KEY_ON with
  | true =>
    have hK6 : (CH6.slots snum).KEY_ON = true := hcK.trans hK
    rw [if_pos hK6]
    have hr := retrigger_spec (CH6.slots snum)
    refine ⟨?_, ?_, ?_, ?_, ?_, ?_, ?_, ?_, ?_, ?_, ?_, ?_⟩
    · rw [setSlot_at]
      exact (congrArg (fun t => t.1) hr.1).trans hcw
    · rw [setSlot_at]
      exact (congrArg (fun t => t.2.1) hr.1).trans hcb
    · rw [setSlot_at]
      exact (congrArg (fun t => t.2.2.1) hr.1).trans hcs
    · rw [setSlot_at]
      exact (congrArg (fun t => t.2.2.2.1) hr.1).trans hcl
    · rw [setSlot_at]
      exact (congrArg (fun t => t.2.2.2.2.1) hr.1).trans hce
    · rw [updFun_ne _ _ _ _ hj5]
      exact hch.2.2.1
    · rw [updFun_ne _ _ _ _ hj6]
      exact hch.2.2.2.1
    · rw [updFun_ne _ _ _ _ hj7]
      exact hch.2.2.2.2.1
    · rw [updFun_ne _ _ _ _ hj8]
      exact hch.2.2.2.2.2.1
    · rw [updFun_ne _ _ _ _ hj9]
      exact hch.2.2.2.2.2.2
    · intro _
      refine ⟨?_, ?_, ?_⟩
      · rw [setSlot_at]
        exact hr.2.1
      · rw [setSlot_at]
        exact hr.2.2.2.2.2.2
      · intro ho8
        rw [setSlot_at]
        exact hr.2.2.1 (by rw [hcO]; exact ho8)
    · intro h
      exact absurd h (by decide)
  | false =>
    have hK6 : (CH6.slots snum).KEY_ON = false := hcK.trans hK
    have hn6 : ¬((CH6.slots snum).KEY_ON = true) := by
      rw [hK6]
      decide
    rw [if_neg hn6]
    by_cases hA : (CH6.slots snum).active = true
    · rw [if_pos hA]
      have hterm := ce_term ({ CH6.slots snum with env_step := 5 }) (Or.inr rfl)
      have hcoreE : slotCore (compute_envelope { CH6.slots snum with env_step := 5 }) =
          slotCore (CH6.slots snum) := hterm.2.2.2.2.2.1
      refine ⟨?_, ?_, ?_, ?_, ?_, ?_, ?_, ?_, ?_, ?_, ?_, ?_⟩
      · rw [setSlot_at]
        exact (congrArg (fun t => t.1) hcoreE).trans hcw
      · rw [setSlot_at]
        exact (congrArg (fun t => t.2.1) hcoreE).trans hcb
      · rw [setSlot_at]
        exact (congrArg (fun t => t.2.2.1) hcoreE).trans hcs
      · rw [setSlot_at]
        exact (congrArg (fun t => t.2.2.2.1) hcoreE).trans hcl
      · rw [setSlot_at]
        exact (congrArg (fun t => t.2.2.2.2.1) hcoreE).trans hce
      · rw [updFun_ne _ _ _ _ hj5]
        exact hch.2.2.1
      · rw [updFun_ne _ _ _ _ hj6]
        exact hch.2.2.2.1
      · rw [updFun_ne _ _ _ _ hj7]
        exact hch.2.2.2.2.1
      · rw [updFun_ne _ _ _ _ hj8]
        exact hch.2.2.2.2.2.1
      · rw [updFun_ne _ _ _ _ hj9]
        exact hch.2.2.2.2.2.2
      · intro h
        exact absurd h (by decide)
      · intro _
        rw [setSlot_at]
        exact hterm.2.1
    · rw [if_neg hA]
      have hAf : (CH6.slots snum).active = false := by
        cases hab : (CH6.slots snum).active
        · rfl
        · exact absurd hab hA
      refine ⟨hcw, hcb, hcs, hcl, hce, ?_, ?_, ?_, ?_, ?_, ?_, fun _ => hAf⟩
      · rw [updFun_ne _ _ _ _ hj5]
        exact hch.2.2.1
      · rw [updFun_ne _ _ _ _ hj6]
        exact hch.2.2.2.1
      · rw [updFun_ne _ _ _ _ hj7]
        exact hch.2.2.2.2.1
      · rw [updFun_ne _ _ _ _ hj8]
        exact hch.2.2.2.2.2.1
      · rw [updFun_ne _ _ _ _ hj9]
        exact hch.2.2.2.2.2.2
      · intro h
        exact absurd h (by decide)

/-- C2 counterexample (to the six-register count): loading the wave
header of slot 0 re-writes exactly FIVE dependent registers of the
slot, not six.  Starting from a register file holding 255 everywhere
(a value no header byte or written datum can equal), the registers
whose contents change, apart from the wave-table-index register 8
itself, are exactly the five group 5-9 registers of slot 0. -/
theorem wave_header_five_registers_cex :
    ((Finset.range 256).filter
        (fun r => r ≠ 8 ∧
          (C_w { chip0 with pcmregs := fun _ => 255 } 8 7).pcmregs r ≠ 255)) =
      ({slotreg 0 5, slotreg 0 6, slotreg 0 7, slotreg 0 8, slotreg 0 9} :
        Finset Nat) ∧
    ((Finset.range 256).filter
        (fun r => r ≠ 8 ∧
          (C_w { chip0 with pcmregs := fun _ => 255 } 8 7).pcmregs r ≠ 255)).card
      = 5 := by
  constructor
  · decide
  · decide

/-- Witness for C2: the header load on slot 0 of the reset-like chip
takes the in-repo bank (offset 0), stores wave index 0, and latches
header byte 7 into the group-5 register. -/
theorem wave_header_claim_witness :
    (0 : Nat) < 24 ∧
    ((C_w chip0 (slotreg 0 0) 0).slots 0).wave = 0 ∧
    (C_w chip0 (slotreg 0 0) 0).pcmregs (slotreg 0 5) = 8 := by
  have h := wave_header_claim chip0 0 0 0 0 (fun i => read_byte chip0 (0 + i))
    (by decide) (by decide) (by decide) rfl
  refine ⟨by decide, h.2.2.1, ?_⟩
  rw [h.2.2.2.2.2.2.2.1]
  decide


/-- C7: under the chip activity invariant (every slot's `active` flag
agrees with "octave is not the mute sentinel 8 and the envelope is not
in a terminal phase", and every octave field mirrors its group-2
register image), a slot is active iff its octave is not 8 and its
envelope phase is non-terminal; the invariant is preserved by every
host write (`ymf278b_device::write`, hence by every PCM command) and by
the per-sample playback loop of `sound_stream_update`; and a slot whose
octave is 8 is inactive and contributes exactly zero to both stereo
wavetable buses for every output sample, whatever its other fields
hold. -/
theorem voice_activity_claim :
    (∀ c : Chip, ChipInv c → ∀ n, n < 24 →
      ((c.slots n).active = true ↔
        ((c.slots n).octave ≠ 8 ∧ (c.slots n).env_step ≠ 3 ∧
         (c.slots n).env_step ≠ 5))) ∧
    (∀ (fw : FMState → Nat → Nat → FMState) (c : Chip) (offset data : Nat),
      ChipInv c → ChipInv (ymf_write fw c offset data)) ∧
    (∀ (vol : Nat → Int) (n : Nat) (c : Chip),
      ChipInv c → ChipInv (pcm_update_slots vol n c)) ∧
    (∀ (vol : Nat → Int) (mem : Nat → Nat) (n : Nat) (s : Slot),
      SlotInv s → s.octave = 8 →
      s.active = false ∧
      slot_mix vol mem n s = (List.replicate n ((0, 0), (0, 0)), s)) := by
  refine ⟨fun c hc n hn => (hc n hn).1,
    fun fw c o d hc => ymf_write_keep fw c o d hc,
    fun vol n c hc => pcm_update_keep vol n c hc,
    fun vol mem n s h1 h8 => ?_⟩
  have hact : s.active = false := by
    cases hab : s.active
    · rfl
    · exact absurd (h1.mp hab).1 (not_not_intro h8)
  refine ⟨hact, ?_⟩
  simp [slot_mix, hact]

/-- Witness for C7: the silenced reset-like chip satisfies the
invariant, keeps it across a write, and an octave-8 slot yields the
all-zero contribution list. -/
theorem voice_activity_claim_witness :
    ChipInv chip0 ∧
    ChipInv (ymf_write (fun f _ _ => f) chip0 0 0) ∧
    ChipInv (pcm_update_slots (fun _ => 0) 1 chip0) ∧
    ({ slot0 with octave := 8, env_step := 5 } : Slot).active = false ∧
    slot_mix (fun _ => 0) (fun _ => 0) 2 ({ slot0 with octave := 8, env_step := 5 } : Slot) =
      (List.replicate 2 ((0, 0), (0, 0)), ({ slot0 with octave := 8, env_step := 5 } : Slot)) := by
  have h0 : ChipInv chip0 := by decide
  refine ⟨h0, voice_activity_claim.2.1 (fun f _ _ => f) chip0 0 0 h0,
    voice_activity_claim.2.2.1 (fun _ => 0) 1 chip0 h0,
    (voice_activity_claim.2.2.2 (fun _ => 0) (fun _ => 0) 2
      ({ slot0 with octave := 8, env_step := 5 } : Slot) (by decide) rfl).1,
    (voice_activity_claim.2.2.2 (fun _ => 0) (fun _ => 0) 2
      ({ slot0 with octave := 8, env_step := 5 } : Slot) (by decide) rfl).2⟩

end YMF278B
